import Mathlib

/-!
Verification of the Streaming Document Extraction Engine of the
mainframe-migration-suite repository.

The development shallowly embeds, over `List Char`:

* the per-chunk streaming extractor
  (`services/mainframe-analyzer/src/chunk-processor-lambda/lambda_function.py`,
  class `ChunkStreamingExtractor`);
* the whole-prompt streaming extractor
  (`services/mainframe-analyzer/src/analysis-lambda/lambda_function.py`,
  class `StreamingFileExtractor`);
* the chunk splitter (`services/mainframe-analyzer/src/chunking-lambda`,
  `create_chunks`), and
* the chunk-result aggregator (`analysis-lambda`, `aggregate_chunk_results`).

Python strings are `List Char`; the S3 `put_object` side effect is modelled by
recording the written body in the emitted file-info record (the bucket/key
plumbing carries no parsing logic and is not modelled).  Regex matching is
restricted to the fixed patterns appearing in the source and is implemented
directly; semantics follow `re.match` (prefix match, `re.IGNORECASE`).
Whitespace (`\s`, `str.strip`) is the ASCII whitespace set, which is the
faithful semantics for ASCII streams.
-/

/-- ASCII whitespace as matched by Python's `\s` and stripped by `str.strip`. -/
def isSpacePy (c : Char) : Bool :=
  c = ' ' || c = '\t' || c = '\n' || c = '\r' || c = '\x0b' || c = '\x0c'

/-- Python `str.strip()`. -/
def stripChars (l : List Char) : List Char :=
  ((l.dropWhile isSpacePy).reverse.dropWhile isSpacePy).reverse

/-- Python `str.startswith` (case sensitive). -/
def startsWithStr : List Char → List Char → Bool
  | [], _ => true
  | _ :: _, [] => false
  | p :: ps, c :: cs => p = c && startsWithStr ps cs

/-- Case-insensitive literal match (the literal is given lowercase), returning
the rest of the text after the literal; `re.IGNORECASE` prefix semantics. -/
def matchKw : List Char → List Char → Option (List Char)
  | [], t => some t
  | _ :: _, [] => none
  | p :: ps, c :: cs => if c.toLower = p then matchKw ps cs else none

/-- Greedy `[_\s]*`. -/
def dropUS (l : List Char) : List Char :=
  l.dropWhile (fun c => c = '_' || isSpacePy c)

/-- A chain of case-insensitive keywords separated by `[_\s]*`, as in the
section header regexes `LAMBDA[_\s]*FUNCTIONS?` (the optional trailing
letters of the patterns constrain nothing, since a prefix match succeeds
with or without them). -/
def chainKw : List (List Char) → List Char → Bool
  | [], _ => true
  | [k], r => (matchKw k r).isSome
  | k :: k2 :: ks, r =>
    match matchKw k r with
    | none => false
    | some r2 => chainKw (k2 :: ks) (dropUS r2)

/-- The fixed closed set of section tags used by both streaming extractors. -/
inductive SectionId
  | LAMBDA_FUNCTIONS | IAM_ROLES | DYNAMODB | S3 | SQS_SNS_EVENTBRIDGE
  | STEP_FUNCTIONS | AWS_GLUE | API_GATEWAY | ECS_FARGATE | RDS
  | CLOUDFORMATION | OTHER_SERVICES | README | REASONING | ARCHITECTURE
deriving Repr, DecidableEq

/-- `detect_section`: first matching pattern of the `section_patterns` dict,
in insertion order (identical dicts in both extractor classes). -/
def detect_section (line : List Char) : Option SectionId :=
  match matchKw ("##".toList) line with
  | none => none
  | some r0 =>
    let r := r0.dropWhile isSpacePy
    if chainKw [("lambda".toList), ("function".toList)] r then some .LAMBDA_FUNCTIONS
    else if chainKw [("iam".toList), ("role".toList)] r then some .IAM_ROLES
    else if chainKw [("dynamo".toList), ("db".toList)] r then some .DYNAMODB
    else if chainKw [("s3".toList)] r then some .S3
    else if chainKw [("sqs".toList), ("sns".toList), ("eventbridge".toList)] r
            || chainKw [("messaging".toList)] r then some .SQS_SNS_EVENTBRIDGE
    else if chainKw [("step".toList), ("function".toList)] r then some .STEP_FUNCTIONS
    else if chainKw [("aws".toList), ("glue".toList)] r
            || chainKw [("glue".toList)] r then some .AWS_GLUE
    else if chainKw [("api".toList), ("gateway".toList)] r then some .API_GATEWAY
    else if chainKw [("ecs".toList)] r || chainKw [("fargate".toList)] r
            || chainKw [("containers".toList)] r then some .ECS_FARGATE
    else if chainKw [("rds".toList)] r then some .RDS
    else if chainKw [("cloudformation".toList)] r
            || chainKw [("cfn".toList)] r then some .CLOUDFORMATION
    else if chainKw [("other".toList), ("services".toList)] r then some .OTHER_SERVICES
    else if chainKw [("readme".toList)] r then some .README
    else if chainKw [("reasoning".toList)] r then some .REASONING
    else if chainKw [("architecture".toList)] r then some .ARCHITECTURE
    else none

/-- Membership in the `documentation_sections` set of both extractors. -/
def is_doc : SectionId → Bool
  | .README | .REASONING | .ARCHITECTURE => true
  | _ => false

/-!  File-header detection.  Each `file_patterns` entry is
`^###\s*(.+\.ext)`: after `###` and whitespace, the greedy `.+` makes the
captured group the longest prefix of the remainder that ends in the
(case-insensitively matched) extension, with at least one character before
it; `.` does not match a newline.  -/

/-- Longest prefix of the text of the shape `body ++ extension` where `body`
is newline-free (possibly empty) and the extension matches case-insensitively;
returns the matched prefix with its original characters. -/
def extScan (ext : List Char) : List Char → Option (List Char)
  | [] => none
  | c :: cs =>
    match (if c = '\n' then none else (extScan ext cs).map (fun p => c :: p)) with
    | some p => some p
    | none =>
      if (matchKw ext (c :: cs)).isSome then some ((c :: cs).take ext.length) else none

/-- The captured group of `(.+\.ext)` (`ext` given lowercase with its dot). -/
def fileGroup (ext : List Char) : List Char → Option (List Char)
  | [] => none
  | c :: cs => if c = '\n' then none else (extScan ext cs).map (fun p => c :: p)

/-- `extScan` for `\.ya?ml`: at the match position the greedy `a?` prefers
`.yaml` over `.yml`. -/
def yamlScan : List Char → Option (List Char)
  | [] => none
  | c :: cs =>
    match (if c = '\n' then none else (yamlScan cs).map (fun p => c :: p)) with
    | some p => some p
    | none =>
      if (matchKw (".yaml".toList) (c :: cs)).isSome then some ((c :: cs).take 5)
      else if (matchKw (".yml".toList) (c :: cs)).isSome then some ((c :: cs).take 4)
      else none

/-- The captured group of `(.+\.ya?ml)`. -/
def yamlGroup : List Char → Option (List Char)
  | [] => none
  | c :: cs => if c = '\n' then none else (yamlScan cs).map (fun p => c :: p)

/-- The captured group of `(Dockerfile.*)`. -/
def dockerGroup (r : List Char) : Option (List Char) :=
  if (matchKw ("dockerfile".toList) r).isSome then
    some (r.take 10 ++ (r.drop 10).takeWhile (fun c => c ≠ '\n'))
  else none

/-- `ChunkStreamingExtractor.detect_file`: the `file_patterns` dict in
insertion order; the captured filename is `.strip()`ped. -/
def detect_file (line : List Char) : Option (List Char) :=
  match matchKw ("###".toList) line with
  | none => none
  | some r0 =>
    let r := r0.dropWhile isSpacePy
    (fileGroup (".py".toList) r <|> fileGroup (".cs".toList) r
      <|> fileGroup (".java".toList) r <|> fileGroup (".go".toList) r
      <|> fileGroup (".js".toList) r <|> fileGroup (".json".toList) r
      <|> yamlGroup r <|> fileGroup (".md".toList) r
      <|> fileGroup (".sh".toList) r <|> fileGroup (".sql".toList) r
      <|> dockerGroup r <|> fileGroup (".tf".toList) r
      <|> fileGroup (".properties".toList) r <|> fileGroup (".csproj".toList) r
      <|> fileGroup (".xml".toList) r).map stripChars

/-- `StreamingFileExtractor.detect_file` (analysis lambda): the smaller
pattern table, same shape. -/
def ana_detect_file (line : List Char) : Option (List Char) :=
  match matchKw ("###".toList) line with
  | none => none
  | some r0 =>
    let r := r0.dropWhile isSpacePy
    (fileGroup (".py".toList) r <|> fileGroup (".json".toList) r
      <|> yamlGroup r <|> fileGroup (".md".toList) r
      <|> fileGroup (".sh".toList) r <|> fileGroup (".sql".toList) r
      <|> dockerGroup r <|> fileGroup (".tf".toList) r
      <|> fileGroup (".properties".toList) r).map stripChars

/-!  Line buffering shared by both extractors: `process_streaming_chunk`
appends the fragment to `self.buffer` and repeatedly splits off the text
before the first newline as one complete line; the text after the last
newline stays buffered.  -/

/-- The complete lines of a buffer and the trailing (newline-free) remainder. -/
def splitComplete : List Char → List (List Char) × List Char
  | [] => ([], [])
  | c :: cs =>
    let p := splitComplete cs
    if c = '\n' then ([] :: p.1, p.2)
    else
      match p.1 with
      | [] => ([], c :: p.2)
      | l :: ls => ((c :: l) :: ls, p.2)

/-- Python `str.split('\n')` (all pieces, including the trailing one). -/
def splitNl (l : List Char) : List (List Char) :=
  (splitComplete l).1 ++ [(splitComplete l).2]

/-- Python `'\n'.join`. -/
def joinNl : List (List Char) → List Char
  | [] => []
  | [l] => l
  | l :: l2 :: ls => l ++ '\n' :: joinNl (l2 :: ls)

/-- Python truthiness of an optional string (`None` and `""` are falsy). -/
def truthyFile : Option (List Char) → Bool
  | none => false
  | some s => !s.isEmpty

/-- `clean_file_content`, identical in both extractors: drop every line whose
stripped form starts with a code fence, drop blank lines at the start, drop
blank lines at the end.  (The source tracks an `in_code_block` flag but never
reads it.) -/
def clean_file_content (content : List Char) : List Char :=
  let cleaned := (splitNl content).foldl
    (fun acc line =>
      if startsWithStr ("```".toList) (stripChars line) then acc
      else if acc.isEmpty && (stripChars line).isEmpty then acc
      else acc ++ [line]) []
  joinNl ((cleaned.reverse.dropWhile (fun l => (stripChars l).isEmpty)).reverse)

/-!  The per-chunk streaming extractor (`ChunkStreamingExtractor`).  -/

/-- The record appended to `files_created` by
`ChunkStreamingExtractor.save_current_file`; `content` is the body written to
the artifact sink for this file. -/
structure ChunkFileInfo where
  filename : List Char
  original_filename : List Char
  sectionTag : Option SectionId
  chunk_index : Nat
  size : Nat
  content : List Char
  content_type : List Char
deriving Repr, DecidableEq

/-- Parse state of `ChunkStreamingExtractor` apart from the fragment buffer
(`current_section`, `current_file`, `current_content`, `files_created`);
`chunk_index` is fixed at construction. -/
structure ChunkCore where
  current_section : Option SectionId
  current_file : Option (List Char)
  current_content : List (List Char)
  files_created : List ChunkFileInfo
  chunk_index : Nat
deriving Repr, DecidableEq

/-- `get_content_type` of `ChunkStreamingExtractor`. -/
def get_content_type (filename : List Char) : List Char :=
  if (".py".toList).isSuffixOf filename then ("text/x-python".toList)
  else if (".cs".toList).isSuffixOf filename then ("text/x-csharp".toList)
  else if (".java".toList).isSuffixOf filename then ("text/x-java".toList)
  else if (".go".toList).isSuffixOf filename then ("text/x-go".toList)
  else if (".js".toList).isSuffixOf filename then ("text/javascript".toList)
  else if (".json".toList).isSuffixOf filename then ("application/json".toList)
  else if (".md".toList).isSuffixOf filename then ("text/markdown".toList)
  else if (".yaml".toList).isSuffixOf filename || (".yml".toList).isSuffixOf filename then
    ("application/x-yaml".toList)
  else if (".sh".toList).isSuffixOf filename then ("application/x-sh".toList)
  else if (".sql".toList).isSuffixOf filename then ("application/sql".toList)
  else if (".tf".toList).isSuffixOf filename then ("text/x-terraform".toList)
  else if (".csproj".toList).isSuffixOf filename then ("application/xml".toList)
  else if (".xml".toList).isSuffixOf filename then ("application/xml".toList)
  else ("text/plain".toList)

/-- Python `str.rsplit('.', 1)`: the parts around the last dot, `none` if the
string has no dot. -/
def rsplitDot : List Char → Option (List Char × List Char)
  | [] => none
  | c :: cs =>
    match rsplitDot cs with
    | some p => some (c :: p.1, p.2)
    | none => if c = '.' then some ([], cs) else none

/-- The chunk-identifier step of `save_current_file`: insert `_chunk{i}`
before the final extension, or append it when the filename has no dot. -/
def add_chunk_suffix (filename : List Char) (i : Nat) : List Char :=
  match rsplitDot filename with
  | some p => p.1 ++ ("_chunk".toList) ++ Nat.toDigits 10 i ++ '.' :: p.2
  | none => filename ++ ("_chunk".toList) ++ Nat.toDigits 10 i

/-- `ChunkStreamingExtractor.save_current_file`.  Returns early (leaving the
state untouched) when no file is open, the content list is empty, or the
cleaned content strips to fewer than 30 characters; otherwise records the
artifact under the `_chunk{i}`-suffixed filename and resets
`current_file`/`current_content`.  (The S3 `put_object` and the path
composition `{prefix}/{folder}/{name}` carry no parse state and are modelled
by recording the written body in the file info.) -/
def save_current_file (s : ChunkCore) : ChunkCore :=
  if !(truthyFile s.current_file) || s.current_content.isEmpty then s
  else
    let content := clean_file_content (joinNl s.current_content)
    if (stripChars content).length < 30 then s
    else
      let f := s.current_file.getD []
      let chunk_filename := add_chunk_suffix f s.chunk_index
      let info : ChunkFileInfo :=
        { filename := chunk_filename
          original_filename := f
          sectionTag := s.current_section
          chunk_index := s.chunk_index
          size := content.length
          content := content
          content_type := get_content_type f }
      { s with files_created := s.files_created ++ [info]
               current_file := none
               current_content := [] }

/-- The default filenames auto-created for documentation sections by
`ChunkStreamingExtractor` (with chunk identifier). -/
def auto_doc_name (sec : SectionId) (i : Nat) : Option (List Char) :=
  match sec with
  | .README => some (("README_chunk".toList) ++ Nat.toDigits 10 i ++ (".md".toList))
  | .REASONING => some (("analysis_chunk".toList) ++ Nat.toDigits 10 i ++ (".md".toList))
  | .ARCHITECTURE => some (("architecture_chunk".toList) ++ Nat.toDigits 10 i ++ (".md".toList))
  | _ => none

/-- `ChunkStreamingExtractor.is_file_complete` (the argument is the already
stripped line). -/
def is_file_complete (s : ChunkCore) (line : List Char) : Bool :=
  if s.current_content.isEmpty then false
  else
    (match s.current_section with
     | some sec =>
       is_doc sec &&
         ((detect_section line).isSome
           || (s.current_content.length > 15 &&
               ((stripChars line).isEmpty && s.current_content.length > 30)))
     | none => false)
    || (line == ("```".toList) && s.current_content.length > 10)
    || (((detect_file line).isSome || (detect_section line).isSome)
        && s.current_content.length > 5)
    || (s.current_content.length > 300)

/-- The content-accumulation tail of `ChunkStreamingExtractor.process_line`:
auto-open the documentation file if needed, append the raw line, save if the
completion heuristic fires. -/
def content_step (s : ChunkCore) (line : List Char) : ChunkCore :=
  match s.current_section with
  | none => s
  | some sec =>
    let s1 :=
      if is_doc sec && !(truthyFile s.current_file) then
        { s with current_file := auto_doc_name sec s.chunk_index }
      else s
    if truthyFile s1.current_file then
      let s2 := { s1 with current_content := s1.current_content ++ [line] }
      if is_file_complete s2 (stripChars line) then save_current_file s2 else s2
    else s1

/-- `ChunkStreamingExtractor.process_line`. -/
def process_line (s : ChunkCore) (line : List Char) : ChunkCore :=
  let ls := stripChars line
  match detect_section ls with
  | some sec =>
    let s1 := if truthyFile s.current_file && !s.current_content.isEmpty then
        save_current_file s else s
    let s2 := { s1 with current_section := some sec, current_file := none,
                        current_content := [] }
    if is_doc sec then { s2 with current_file := auto_doc_name sec s2.chunk_index }
    else s2
  | none =>
    match detect_file ls with
    | some f =>
      if !f.isEmpty && s.current_section.isSome then
        let s1 := if truthyFile s.current_file && !s.current_content.isEmpty then
            save_current_file s else s
        { s1 with current_file := some f, current_content := [] }
      else content_step s line
    | none => content_step s line

/-- Full state of a `ChunkStreamingExtractor`: fragment buffer plus parse
state. -/
structure ChunkExtractor where
  buffer : List Char
  core : ChunkCore
deriving Repr, DecidableEq

/-- A freshly constructed `ChunkStreamingExtractor` for chunk `i`. -/
def initChunkExtractor (i : Nat) : ChunkExtractor :=
  { buffer := []
    core := { current_section := none, current_file := none,
              current_content := [], files_created := [], chunk_index := i } }

/-- `ChunkStreamingExtractor.process_streaming_chunk` (the `feed` operation):
append the fragment to the buffer, process every complete line, keep the
trailing partial line buffered. -/
def process_streaming_chunk (e : ChunkExtractor) (chunk : List Char) : ChunkExtractor :=
  let p := splitComplete (e.buffer ++ chunk)
  { buffer := p.2, core := p.1.foldl process_line e.core }

/-- `ChunkStreamingExtractor.finalize_processing`: save any open file, then
process a non-blank trailing buffer as a final line and save again. -/
def finalize_processing (e : ChunkExtractor) : ChunkExtractor :=
  let c1 := if truthyFile e.core.current_file && !e.core.current_content.isEmpty then
      save_current_file e.core else e.core
  if !(stripChars e.buffer).isEmpty then
    let c2 := process_line c1 e.buffer
    let c3 := if truthyFile c2.current_file && !c2.current_content.isEmpty then
        save_current_file c2 else c2
    { e with core := c3 }
  else { e with core := c1 }

/-- The result dict of `ChunkStreamingExtractor.process_streaming_response`:
`status: success` with the created files, or `status: error`.  (The
`files_by_section` grouping in the success dict is a derived summary of
`all_files` and is not modelled separately.) -/
inductive ChunkRunResult
  | success (files : List ChunkFileInfo)
  | failure (msg : List Char)
deriving Repr, DecidableEq

/-- `ChunkStreamingExtractor.process_streaming_response` over an abstract
fragment stream: every fragment is fed to the line buffer (there is no error
sentinel check in this class); afterwards a non-blank trailing buffer is
processed as a final line and any remaining open file is saved (in this
order, as written inline in the source). -/
def process_streaming_response (i : Nat) (frags : List (List Char)) : ChunkRunResult :=
  let e := frags.foldl process_streaming_chunk (initChunkExtractor i)
  let c1 :=
    if !(stripChars e.buffer).isEmpty then
      let c := process_line e.core e.buffer
      if truthyFile c.current_file && !c.current_content.isEmpty then
        save_current_file c else c
    else e.core
  let c2 := if truthyFile c1.current_file && !c1.current_content.isEmpty then
      save_current_file c1 else c1
  .success c2.files_created

/-!  The whole-prompt streaming extractor (`StreamingFileExtractor`,
analysis lambda).  Same section table; smaller file-pattern table; no chunk
identifier; documentation files are auto-created only at the section header;
the completion heuristic and the minimum-size threshold differ.  -/

/-- The record appended to `files_created` by
`StreamingFileExtractor.save_current_file`. -/
structure AnaFileInfo where
  filename : List Char
  sectionTag : Option SectionId
  size : Nat
  content : List Char
  content_type : List Char
deriving Repr, DecidableEq

/-- Parse state of `StreamingFileExtractor` apart from the fragment buffer. -/
structure AnaCore where
  current_section : Option SectionId
  current_file : Option (List Char)
  current_content : List (List Char)
  files_created : List AnaFileInfo
deriving Repr, DecidableEq

/-- `StreamingFileExtractor.get_content_type`. -/
def ana_get_content_type (filename : List Char) : List Char :=
  if (".py".toList).isSuffixOf filename then ("text/x-python".toList)
  else if (".json".toList).isSuffixOf filename then ("application/json".toList)
  else if (".md".toList).isSuffixOf filename then ("text/markdown".toList)
  else if (".yaml".toList).isSuffixOf filename || (".yml".toList).isSuffixOf filename then
    ("application/x-yaml".toList)
  else if (".sh".toList).isSuffixOf filename then ("application/x-sh".toList)
  else if (".sql".toList).isSuffixOf filename then ("application/sql".toList)
  else if (".tf".toList).isSuffixOf filename then ("text/x-terraform".toList)
  else ("text/plain".toList)

/-- `StreamingFileExtractor.save_current_file`: same shape as the per-chunk
variant but with a 50-character threshold and no filename rewriting. -/
def ana_save_current_file (s : AnaCore) : AnaCore :=
  if !(truthyFile s.current_file) || s.current_content.isEmpty then s
  else
    let content := clean_file_content (joinNl s.current_content)
    if (stripChars content).length < 50 then s
    else
      let f := s.current_file.getD []
      let info : AnaFileInfo :=
        { filename := f
          sectionTag := s.current_section
          size := content.length
          content := content
          content_type := ana_get_content_type f }
      { s with files_created := s.files_created ++ [info]
               current_file := none
               current_content := [] }

/-- The default filenames auto-created for documentation sections by
`StreamingFileExtractor`. -/
def ana_auto_doc_name (sec : SectionId) : Option (List Char) :=
  match sec with
  | .README => some ("README.md".toList)
  | .REASONING => some ("reasoning.md".toList)
  | .ARCHITECTURE => some ("architecture.md".toList)
  | _ => none

/-- `StreamingFileExtractor.is_file_complete`: documentation files complete
only at a different section header; technical files at a closing fence
(> 10 lines), an upcoming header (> 5 lines) or > 1000 buffered lines. -/
def ana_is_file_complete (s : AnaCore) (line : List Char) : Bool :=
  if s.current_content.isEmpty then false
  else
    match s.current_section with
    | some sec =>
      if is_doc sec then
        match detect_section line with
        | some ns => decide (ns ≠ sec)
        | none => false
      else
        (line == ("```".toList) && s.current_content.length > 10)
        || (((ana_detect_file line).isSome || (detect_section line).isSome)
            && s.current_content.length > 5)
        || (s.current_content.length > 1000)
    | none =>
      (line == ("```".toList) && s.current_content.length > 10)
      || (((ana_detect_file line).isSome || (detect_section line).isSome)
          && s.current_content.length > 5)
      || (s.current_content.length > 1000)

/-- Content accumulation of `StreamingFileExtractor.process_line` (no
auto-creation here: only at the section header). -/
def ana_content_step (s : AnaCore) (line : List Char) : AnaCore :=
  match s.current_section with
  | none => s
  | some _ =>
    if truthyFile s.current_file then
      let s2 := { s with current_content := s.current_content ++ [line] }
      if ana_is_file_complete s2 (stripChars line) then ana_save_current_file s2 else s2
    else s

/-- `StreamingFileExtractor.process_line`. -/
def ana_process_line (s : AnaCore) (line : List Char) : AnaCore :=
  let ls := stripChars line
  match detect_section ls with
  | some sec =>
    let s1 := if truthyFile s.current_file && !s.current_content.isEmpty then
        ana_save_current_file s else s
    let s2 := { s1 with current_section := some sec, current_file := none,
                        current_content := [] }
    if is_doc sec then { s2 with current_file := ana_auto_doc_name sec }
    else s2
  | none =>
    match ana_detect_file ls with
    | some f =>
      if !f.isEmpty && s.current_section.isSome then
        let s1 := if truthyFile s.current_file && !s.current_content.isEmpty then
            ana_save_current_file s else s
        { s1 with current_file := some f, current_content := [] }
      else ana_content_step s line
    | none => ana_content_step s line

/-- Full state of a `StreamingFileExtractor`. -/
structure AnaExtractor where
  buffer : List Char
  core : AnaCore
deriving Repr, DecidableEq

/-- A freshly constructed `StreamingFileExtractor`. -/
def initAnaExtractor : AnaExtractor :=
  { buffer := []
    core := { current_section := none, current_file := none,
              current_content := [], files_created := [] } }

/-- `StreamingFileExtractor.process_streaming_chunk` (the `feed` operation). -/
def ana_process_streaming_chunk (e : AnaExtractor) (chunk : List Char) : AnaExtractor :=
  let p := splitComplete (e.buffer ++ chunk)
  { buffer := p.2, core := p.1.foldl ana_process_line e.core }

/-- `StreamingFileExtractor.finalize_processing`. -/
def ana_finalize_processing (e : AnaExtractor) : AnaExtractor :=
  let c1 := if truthyFile e.core.current_file && !e.core.current_content.isEmpty then
      ana_save_current_file e.core else e.core
  if !(stripChars e.buffer).isEmpty then
    let c2 := ana_process_line c1 e.buffer
    let c3 := if truthyFile c2.current_file && !c2.current_content.isEmpty then
        ana_save_current_file c2 else c2
    { e with core := c3 }
  else { e with core := c1 }

/-- Result dict of the analysis engine `process_with_streaming_extraction`. -/
inductive AnaRunResult
  | success (files : List AnaFileInfo)
  | failure (msg : List Char)
deriving Repr, DecidableEq

/-- `process_with_streaming_extraction` (analysis lambda) over an abstract
fragment stream: a fragment starting with the `Error:` sentinel aborts the
run with an error status before being fed; otherwise every fragment is fed
and the extractor is finalized. -/
def process_with_streaming_extraction : AnaExtractor → List (List Char) → AnaRunResult
  | e, [] => .success (ana_finalize_processing e).core.files_created
  | e, c :: cs =>
    if startsWithStr ("Error:".toList) c then .failure c
    else process_with_streaming_extraction (ana_process_streaming_chunk e c) cs

/-!  The chunk splitter (`chunking-lambda`, `create_chunks`).  -/

/-- `estimate_token_count`: `len(text) // 4`. -/
def estimate_token_count (text : List Char) : Nat := text.length / 4

/-- Python `str.find`: index of the first occurrence of a substring. -/
def findSub (pat : List Char) : List Char → Option Nat
  | [] => if pat.isEmpty then some 0 else none
  | c :: cs =>
    if startsWithStr pat (c :: cs) then some 0
    else (findSub pat cs).map (· + 1)

/-- Sentence splitting `re.split(r'(?<=[.!?])\s+', para)`: split at each
maximal whitespace run immediately preceded by `.`, `!` or `?` (the
punctuation stays with the left piece, the whitespace is consumed). -/
def isPunctPy (c : Char) : Bool := c = '.' || c = '!' || c = '?'

/-- State machine for the sentence split: `cur` is the current piece
(reversed), `lastPunct` whether the previous character was `[.!?]`,
`skipping` whether we are consuming a split run of whitespace. -/
def sentGo (cur : List Char) (lastPunct skipping : Bool) : List Char → List (List Char)
  | [] => [cur.reverse]
  | c :: cs =>
    if skipping then
      if isSpacePy c then sentGo cur lastPunct true cs
      else sentGo [c] (isPunctPy c) false cs
    else if lastPunct && isSpacePy c then cur.reverse :: sentGo [] false true cs
    else sentGo (c :: cur) (isPunctPy c) false cs

def splitSentences (l : List Char) : List (List Char) := sentGo [] false false l

/-- State machine for `re.split(r'\n\n+', doc)`: `pending` means exactly one
newline has been seen and not yet attributed, `inRun` that we are inside a
splitting run of two or more newlines (in which state `cur` is empty). -/
def paraGo (cur : List Char) (pending inRun : Bool) : List Char → List (List Char)
  | [] => if pending then [cur.reverse ++ ['\n']] else [cur.reverse]
  | c :: cs =>
    if inRun then
      if c = '\n' then paraGo cur false true cs
      else paraGo [c] false false cs
    else if pending then
      if c = '\n' then cur.reverse :: paraGo [] false true cs
      else paraGo (c :: '\n' :: cur) false false cs
    else
      if c = '\n' then paraGo cur true false cs
      else paraGo (c :: cur) false false cs

def splitParas (l : List Char) : List (List Char) := paraGo [] false false l

/-- The document-boundary split
`re.split(r'(--- FILE: .*? ---\n\n)', documentation)` (case sensitive, with
the markers kept as captured groups).  `matchMarkerBody` finds the
non-greedy `.*?` body: the minimal newline-free run followed by
`" ---\n\n"`. -/
def matchMarkerBody : List Char → Option (List Char × List Char)
  | [] => none
  | c :: cs =>
    if startsWithStr (" ---\n\n".toList) (c :: cs) then some ([], (c :: cs).drop 6)
    else if c = '\n' then none
    else (matchMarkerBody cs).map (fun p => (c :: p.1, p.2))

/-- A match of the document marker at the start of the text: the matched
marker and the rest. -/
def matchMarkerAt (l : List Char) : Option (List Char × List Char) :=
  if startsWithStr ("--- FILE: ".toList) l then
    (matchMarkerBody (l.drop 10)).map (fun p =>
      (("--- FILE: ".toList) ++ p.1 ++ (" ---\n\n".toList), p.2))
  else none

/-- Leftmost match of the document marker: text before, marker, text after. -/
def findMarker : List Char → Option (List Char × List Char × List Char)
  | [] => none
  | c :: cs =>
    match matchMarkerAt (c :: cs) with
    | some p => some ([], p.1, p.2)
    | none => (findMarker cs).map (fun q => (c :: q.1, q.2.1, q.2.2))

/-- `re.split` with captured separators, fuelled by the text length: every
match consumes at least the 16 characters of `--- FILE:  ---\n\n`, so the
fuel never runs out and the `0` case is unreachable padding. -/
def splitFMGo : Nat → List Char → List (List Char)
  | 0, l => [l]
  | fuel + 1, l =>
    match findMarker l with
    | none => [l]
    | some q => q.1 :: q.2.1 :: splitFMGo fuel q.2.2

def splitFileMarkers (l : List Char) : List (List Char) := splitFMGo (l.length + 1) l

/-- The default prompt template prepended when the input holds no
`DOCUMENTATION:` marker. -/
def defaultPromptPart : List Char :=
  ("You are an expert mainframe documentation analyzer. Please analyze the following documentation:\n\nDOCUMENTATION:".toList)

/-- Accumulator of the `create_chunks` loops: finished chunks, the current
chunk text and its running token counter. -/
structure ChState where
  chunks : List (List Char)
  cur : List Char
  curTok : Nat
deriving Repr, DecidableEq

/-- The sentence-level loop body of `create_chunks`. -/
def processSentence (avail : Int) (pp : List Char) (st : ChState) (sen : List Char) : ChState :=
  let stok := estimate_token_count sen
  if ((st.curTok + stok : Nat) : Int) > avail ∧ st.cur ≠ [] then
    { chunks := st.chunks ++ [pp ++ ("\n\n".toList) ++ st.cur], cur := sen, curTok := stok }
  else if st.cur ≠ [] then
    { st with cur := st.cur ++ ' ' :: sen, curTok := st.curTok + stok }
  else
    { st with cur := sen, curTok := st.curTok + stok }

/-- The paragraph-level loop body of `create_chunks`. -/
def processPara (avail : Int) (pp : List Char) (st : ChState) (para : List Char) : ChState :=
  let ptok := estimate_token_count para
  if (ptok : Int) > avail then
    (splitSentences para).foldl (processSentence avail pp) st
  else if ((st.curTok + ptok : Nat) : Int) > avail ∧ st.cur ≠ [] then
    { chunks := st.chunks ++ [pp ++ ("\n\n".toList) ++ st.cur], cur := para, curTok := ptok }
  else if st.cur ≠ [] then
    { st with cur := st.cur ++ ("\n\n".toList) ++ para, curTok := st.curTok + ptok }
  else
    { st with cur := para, curTok := st.curTok + ptok }

/-- The document-level loop body of `create_chunks` (whitespace-only pieces
are skipped; an oversized document first flushes the current chunk, then is
split into paragraphs). -/
def processDoc (avail : Int) (pp : List Char) (st : ChState) (doc : List Char) : ChState :=
  if stripChars doc = [] then st
  else
    let dtok := estimate_token_count doc
    if (dtok : Int) > avail then
      let st1 :=
        if st.cur ≠ [] then
          { chunks := st.chunks ++ [pp ++ ("\n\n".toList) ++ st.cur], cur := [], curTok := 0 }
        else st
      (splitParas doc).foldl (processPara avail pp) st1
    else if ((st.curTok + dtok : Nat) : Int) > avail ∧ st.cur ≠ [] then
      { chunks := st.chunks ++ [pp ++ ("\n\n".toList) ++ st.cur], cur := doc, curTok := dtok }
    else if st.cur ≠ [] then
      { st with cur := st.cur ++ doc, curTok := st.curTok + dtok }
    else
      { st with cur := doc, curTok := st.curTok + dtok }

/-- `create_chunks(full_text, max_tokens_per_chunk)`: split off the prompt
template at the `DOCUMENTATION:` marker (or prepend the default one), budget
`available = max - prompt - 500`, then run the document / paragraph /
sentence loops and flush the final chunk. -/
def create_chunks (full_text : List Char) (max_tokens_per_chunk : Nat) : List (List Char) :=
  let pp_doc :=
    match findSub ("DOCUMENTATION:".toList) full_text with
    | some i => (full_text.take (i + 14), full_text.drop (i + 14))
    | none => (defaultPromptPart, full_text)
  let pp := pp_doc.1
  let avail : Int := (max_tokens_per_chunk : Int) - (estimate_token_count pp : Int) - 500
  let st := (splitFileMarkers pp_doc.2).foldl (processDoc avail pp)
    { chunks := [], cur := [], curTok := 0 }
  if st.cur ≠ [] then st.chunks ++ [pp ++ ("\n\n".toList) ++ st.cur] else st.chunks

/-!  The chunk-result aggregator (`analysis-lambda`,
`aggregate_chunk_results`).  A chunk analysis result is the dict built by the
chunking path: a `status` string and the per-service contents (a Python dict,
modelled as an insertion-ordered association list with unique keys).  -/

structure ChunkAnalysisResult where
  status : List Char
  service_contents : List (List Char × List Char)
deriving Repr, DecidableEq

/-- The delimiter inserted between merged contents:
`"\n\n### Additional Analysis from Chunk {i+1}\n\n"`. -/
def chunkMarker (i : Nat) : List Char :=
  ("\n\n### Additional Analysis from Chunk ".toList) ++ Nat.toDigits 10 (i + 1)
    ++ ("\n\n".toList)

/-- Python `key in dict`. -/
def dictContainsKey (d : List (List Char × List Char)) (k : List Char) : Bool :=
  d.any (fun p => p.1 == k)

/-- Python `dict[key]` as an option. -/
def dictGet (d : List (List Char × List Char)) (k : List Char) : Option (List Char) :=
  (d.find? (fun p => p.1 == k)).map (fun p => p.2)

/-- Python `dict[key] += add` (value replaced in place, position kept). -/
def dictAppendAt (d : List (List Char × List Char)) (k : List Char) (add : List Char) :
    List (List Char × List Char) :=
  d.map (fun p => if p.1 == k then (p.1, p.2 ++ add) else p)

/-- Merging one chunk result (at position `idx` of the input list) into the
aggregated dict: failed chunks are skipped; a new service type is appended;
an existing one gets the marker and the new content appended. -/
def aggregate_one (idx : Nat) (agg : List (List Char × List Char))
    (r : ChunkAnalysisResult) : List (List Char × List Char) :=
  if r.status == ("error".toList) then agg
  else r.service_contents.foldl
    (fun a kv =>
      if dictContainsKey a kv.1 then dictAppendAt a kv.1 (chunkMarker idx ++ kv.2)
      else a ++ [kv]) agg

def aggregate_go : List (List Char × List Char) → Nat → List ChunkAnalysisResult →
    List (List Char × List Char)
  | agg, _, [] => agg
  | agg, i, r :: rs => aggregate_go (aggregate_one i agg r) (i + 1) rs

/-- `aggregate_chunk_results`. -/
def aggregate_chunk_results (rs : List ChunkAnalysisResult) :
    List (List Char × List Char) :=
  aggregate_go [] 0 rs

/-- The successful occurrences of a service type across the chunk results,
each with the position of its chunk in the input list, in input order (and,
within one result, in `items()` order). -/
def successfulOccurrences (k : List Char) : Nat → List ChunkAnalysisResult →
    List (Nat × List Char)
  | _, [] => []
  | i, r :: rs =>
    (if r.status == ("error".toList) then []
     else (r.service_contents.filter (fun p => p.1 == k)).map (fun p => (i, p.2)))
    ++ successfulOccurrences k (i + 1) rs

/-- Modelled from the spec's aggregation rule, for comparison with
`aggregate_chunk_results`: failed chunks are skipped; the first successful
chunk's content for a section becomes the base; every later content for the
same section is appended after a delimiter naming its chunk, in chunk
order. -/
def mergeSpecContent (k : List Char) (rs : List ChunkAnalysisResult) :
    Option (List Char) :=
  match successfulOccurrences k 0 rs with
  | [] => none
  | p :: rest => some (rest.foldl (fun acc q => acc ++ chunkMarker q.1 ++ q.2) p.2)


theorem splitComplete_cons (c : Char) (cs : List Char) :
    splitComplete (c :: cs) =
      if c = '\n' then ([] :: (splitComplete cs).1, (splitComplete cs).2)
      else
        match (splitComplete cs).1 with
        | [] => ([], c :: (splitComplete cs).2)
        | l :: ls => ((c :: l) :: ls, (splitComplete cs).2) := rfl

theorem splitComplete_append (a b : List Char) :
    splitComplete (a ++ b) =
      ((splitComplete a).1 ++ (splitComplete ((splitComplete a).2 ++ b)).1,
       (splitComplete ((splitComplete a).2 ++ b)).2) := by
  induction a with
  | nil => simp [splitComplete]
  | cons c a ih =>
    rw [List.cons_append, splitComplete_cons, splitComplete_cons c a, ih]
    by_cases hc : c = '\n'
    · simp [hc]
    · cases h1 : (splitComplete a).1 with
      | nil =>
        simp [hc, h1, splitComplete_cons, List.cons_append]
      | cons l ls =>
        simp [hc, h1, List.cons_append]

theorem process_streaming_chunk_append (e : ChunkExtractor) (c1 c2 : List Char) :
    process_streaming_chunk (process_streaming_chunk e c1) c2
      = process_streaming_chunk e (c1 ++ c2) := by
  unfold process_streaming_chunk
  have h := splitComplete_append (e.buffer ++ c1) c2
  rw [List.append_assoc] at h
  simp only [h, List.foldl_append]

theorem foldl_feed_cons_flatten (fs : List (List Char)) :
    ∀ (c : List Char) (e : ChunkExtractor),
      fs.foldl process_streaming_chunk (process_streaming_chunk e c)
        = process_streaming_chunk e (c ++ fs.flatten) := by
  induction fs with
  | nil => intro c e; simp
  | cons c2 fs ih =>
    intro c e
    rw [List.foldl_cons, process_streaming_chunk_append, ih, List.flatten_cons,
      List.append_assoc]

theorem foldl_feed_init (i : Nat) (fs : List (List Char)) :
    fs.foldl process_streaming_chunk (initChunkExtractor i)
      = process_streaming_chunk (initChunkExtractor i) fs.flatten := by
  cases fs with
  | nil => rfl
  | cons c fs => rw [List.foldl_cons, foldl_feed_cons_flatten, List.flatten_cons]

theorem c1_fragment_boundary_independence (i : Nat) (fs1 fs2 : List (List Char))
    (h : fs1.flatten = fs2.flatten) :
    (finalize_processing (fs1.foldl process_streaming_chunk (initChunkExtractor i))).core.files_created
      = (finalize_processing (fs2.foldl process_streaming_chunk (initChunkExtractor i))).core.files_created := by
  rw [foldl_feed_init, foldl_feed_init, h]

theorem c1_fragment_boundary_independence_witness :
    (([("#".toList), ("#".toList), (" ".toList), ("S".toList), ("3".toList),
       ("\n".toList), ("x".toList)] : List (List Char)).flatten
        = ([("## S3\nx".toList)] : List (List Char)).flatten)
    ∧ (finalize_processing (([("#".toList), ("#".toList), (" ".toList), ("S".toList),
        ("3".toList), ("\n".toList), ("x".toList)]).foldl process_streaming_chunk
          (initChunkExtractor 0))).core.files_created
      = (finalize_processing (([("## S3\nx".toList)]).foldl process_streaming_chunk
          (initChunkExtractor 0))).core.files_created :=
  ⟨by decide, c1_fragment_boundary_independence 0 _ _ (by decide)⟩

/-!  C2: a stream with no section-header line.  -/

/-- On a line with no section header, a fresh parse state is left unchanged:
without a current section neither file headers nor content have any effect. -/
theorem process_line_no_section (i : Nat) (l : List Char)
    (h : detect_section (stripChars l) = none) :
    process_line { current_section := none, current_file := none,
                   current_content := [], files_created := [],
                   chunk_index := i } l
      = { current_section := none, current_file := none, current_content := [],
          files_created := [], chunk_index := i } := by
  cases hf : detect_file (stripChars l) with
  | none => simp [process_line, h, hf, content_step]
  | some f => simp [process_line, h, hf, content_step]

theorem foldl_process_line_no_section (i : Nat) (ls : List (List Char))
    (h : ∀ l ∈ ls, detect_section (stripChars l) = none) :
    ls.foldl process_line
      { current_section := none, current_file := none, current_content := [],
        files_created := [], chunk_index := i }
      = { current_section := none, current_file := none, current_content := [],
          files_created := [], chunk_index := i } := by
  induction ls with
  | nil => rfl
  | cons l ls ih =>
    rw [List.foldl_cons, process_line_no_section i l (h l (by simp)),
      ih (fun x hx => h x (by simp [hx]))]

/-- C2 (amended): for a stream in which no line — complete lines and the
trailing partial line alike — matches a section header pattern, feeding the
whole stream and finalizing emits no artifact at all: the content is
dropped, it is not attributed to any catch-all section.  (The run is a total
function of the stream, so no hard error is possible in the model.) -/
theorem c2_no_section_no_artifacts (i : Nat) (S : List Char)
    (h : ∀ l ∈ splitNl S, detect_section (stripChars l) = none) :
    (finalize_processing (process_streaming_chunk (initChunkExtractor i) S)).core.files_created
      = [] := by
  have hlines : ∀ l ∈ (splitComplete S).1, detect_section (stripChars l) = none := by
    intro l hl
    exact h l (by simp [splitNl, hl])
  have hrem : detect_section (stripChars (splitComplete S).2) = none :=
    h _ (by simp [splitNl])
  unfold process_streaming_chunk initChunkExtractor
  simp only [List.nil_append]
  rw [foldl_process_line_no_section i _ hlines]
  unfold finalize_processing
  simp only [truthyFile, Bool.false_and, Bool.false_eq_true, if_false]
  by_cases hb : (stripChars (splitComplete S).2).isEmpty
  · simp [hb]
  · simp only [hb, Bool.not_false, if_true]
    rw [process_line_no_section i _ hrem]
    simp [truthyFile]

/-- Witness for the amended C2 at a concrete header-free stream. -/
theorem c2_no_section_no_artifacts_witness :
    (∀ l ∈ splitNl ("hello world\nsecond line".toList),
        detect_section (stripChars l) = none)
    ∧ (finalize_processing (process_streaming_chunk (initChunkExtractor 0)
        ("hello world\nsecond line".toList))).core.files_created = [] :=
  ⟨by decide, c2_no_section_no_artifacts 0 _ (by decide)⟩

/-- C2 (counterexample to the claim as stated): a concrete stream with no
section-header line for which `finalize` leaves `files_created` empty — not
the single catch-all artifact the claim requires. -/
theorem c2_counterexample :
    (∀ l ∈ splitNl ("hello world\nsecond line\n".toList),
        detect_section (stripChars l) = none)
    ∧ ¬ ((finalize_processing (process_streaming_chunk (initChunkExtractor 0)
          ("hello world\nsecond line\n".toList))).core.files_created.length = 1) := by
  constructor
  · decide
  · decide

/-!  C5: the flush (`save_current_file`) operation.  -/

/-- C5 (amended): when a file is open with non-empty buffered content,
`save_current_file` emits an artifact and resets `current_file` and the
content buffer exactly when the cleaned content reaches the 30-character
minimum; below the threshold nothing is emitted and the whole state —
including `current_file` and the buffer — is left unchanged rather than
reset. -/
theorem c5_flush_emits_iff_threshold (s : ChunkCore)
    (hf : truthyFile s.current_file = true)
    (hc : s.current_content ≠ []) :
    ((stripChars (clean_file_content (joinNl s.current_content))).length < 30 →
        save_current_file s = s)
    ∧ (30 ≤ (stripChars (clean_file_content (joinNl s.current_content))).length →
        save_current_file s =
          { s with
            files_created := s.files_created ++
              [{ filename := add_chunk_suffix (s.current_file.getD []) s.chunk_index
                 original_filename := s.current_file.getD []
                 sectionTag := s.current_section
                 chunk_index := s.chunk_index
                 size := (clean_file_content (joinNl s.current_content)).length
                 content := clean_file_content (joinNl s.current_content)
                 content_type := get_content_type (s.current_file.getD []) }]
            current_file := none
            current_content := [] }) := by
  have hce : s.current_content.isEmpty = false := by
    cases h : s.current_content with
    | nil => exact absurd h hc
    | cons x xs => rfl
  constructor
  · intro hlt
    unfold save_current_file
    simp [hf, hce, hlt]
  · intro hge
    unfold save_current_file
    simp [hf, hce, Nat.not_lt.mpr hge]

/-- A parse state reached by feeding a real stream whose buffered file
content cleans to fewer than 30 characters. -/
def c5SmallState : ChunkCore :=
  (process_streaming_chunk (initChunkExtractor 0)
    ("## LAMBDA_FUNCTIONS\n### a.py\nshort\n".toList)).core

/-- Witness state for the emitting branch of the flush theorem. -/
def c5BigState : ChunkCore :=
  { current_section := some .LAMBDA_FUNCTIONS
    current_file := some ("a.py".toList)
    current_content := [("abcdefghijklmnopqrstuvwxyz_0123456789_more".toList)]
    files_created := []
    chunk_index := 0 }

/-- Witness for the amended C5: at a concrete above-threshold state the flush
emits the artifact and resets `current_file` and the buffer. -/
theorem c5_flush_emits_iff_threshold_witness :
    (30 ≤ (stripChars (clean_file_content (joinNl c5BigState.current_content))).length)
    ∧ save_current_file c5BigState =
        { c5BigState with
          files_created := c5BigState.files_created ++
            [{ filename := add_chunk_suffix (c5BigState.current_file.getD []) c5BigState.chunk_index
               original_filename := c5BigState.current_file.getD []
               sectionTag := c5BigState.current_section
               chunk_index := c5BigState.chunk_index
               size := (clean_file_content (joinNl c5BigState.current_content)).length
               content := clean_file_content (joinNl c5BigState.current_content)
               content_type := get_content_type (c5BigState.current_file.getD []) }]
          current_file := none
          current_content := [] } :=
  ⟨by decide,
    (c5_flush_emits_iff_threshold c5BigState (by decide) (by decide)).2 (by decide)⟩

/-- C5 (counterexample to the claim as stated): in a reachable parser state
with sub-threshold content, an invocation of the flush operation leaves
`current_file` set and the line buffer non-empty — they are not reset, and
the content is retained, not discarded. -/
theorem c5_counterexample :
    c5SmallState.current_file = some ("a.py".toList)
    ∧ c5SmallState.current_content ≠ []
    ∧ save_current_file c5SmallState = c5SmallState
    ∧ (save_current_file c5SmallState).current_file ≠ none
    ∧ (save_current_file c5SmallState).current_content ≠ []
    ∧ (save_current_file c5SmallState).files_created = [] := by
  refine ⟨by decide, by decide, by decide, by decide, by decide, by decide⟩

/-!  C10: every recorded artifact filename carries the chunk suffix.  -/

theorem rsplitDot_eq : ∀ (f b e : List Char), rsplitDot f = some (b, e) →
    f = b ++ '.' :: e := by
  intro f
  induction f with
  | nil => intro b e h; simp [rsplitDot] at h
  | cons c cs ih =>
    intro b e h
    unfold rsplitDot at h
    cases hr : rsplitDot cs with
    | some p =>
      rw [hr] at h
      simp only [Option.some_inj, Prod.mk.injEq] at h
      obtain ⟨h1, h2⟩ := h
      subst h1; subst h2
      have := ih p.1 p.2 (by rw [hr])
      simp [this]
    | none =>
      rw [hr] at h
      by_cases hc : c = '.'
      · simp only [hc, if_true] at h
        simp only [Option.some_inj, Prod.mk.injEq] at h
        obtain ⟨h1, h2⟩ := h
        subst h1; subst h2
        simp [hc]
      · simp [hc] at h

theorem add_chunk_suffix_length (f : List Char) (i : Nat) :
    (add_chunk_suffix f i).length = f.length + 6 + (Nat.toDigits 10 i).length := by
  have h6 : ("_chunk".toList).length = 6 := rfl
  unfold add_chunk_suffix
  cases h : rsplitDot f with
  | none => simp [List.length_append, h6]; omega
  | some p =>
    have hf := rsplitDot_eq f p.1 p.2 h
    rw [hf]
    simp [List.length_append, h6]
    omega

theorem add_chunk_suffix_ne (f : List Char) (i : Nat) :
    add_chunk_suffix f i ≠ f := by
  intro heq
  have := congrArg List.length heq
  rw [add_chunk_suffix_length] at this
  omega

/-- Invariant of every reachable `ChunkStreamingExtractor` state: the chunk
index is the constructor argument and every recorded file carries the chunk
suffix on its original filename. -/
def chunkCoreOk (i : Nat) (s : ChunkCore) : Prop :=
  s.chunk_index = i ∧
    ∀ info ∈ s.files_created,
      info.filename = add_chunk_suffix info.original_filename i


theorem chunkCoreOk_congr (i : Nat) (t u : ChunkCore) (ht : chunkCoreOk i t)
    (hf : u.files_created = t.files_created) (hc : u.chunk_index = t.chunk_index) :
    chunkCoreOk i u :=
  ⟨hc.trans ht.1, fun info hi => ht.2 info (hf ▸ hi)⟩

theorem save_current_file_ok (i : Nat) (s : ChunkCore) (h : chunkCoreOk i s) :
    chunkCoreOk i (save_current_file s) := by
  unfold save_current_file
  split
  · exact h
  · dsimp only []
    split
    · exact h
    · refine ⟨h.1, ?_⟩
      intro info hinfo
      simp only [List.mem_append, List.mem_singleton] at hinfo
      rcases hinfo with hold | hnew
      · exact h.2 info hold
      · subst hnew
        simp [h.1]

theorem content_step_ok (i : Nat) (s : ChunkCore) (l : List Char)
    (h : chunkCoreOk i s) : chunkCoreOk i (content_step s l) := by
  obtain ⟨cs, cf, cc, fc, ci⟩ := s
  cases cs with
  | none => exact h
  | some sec =>
    unfold content_step
    dsimp only []
    split
    · split
      · split
        · exact save_current_file_ok i _ h
        · exact h
      · exact h
    · split
      · split
        · exact save_current_file_ok i _ h
        · exact h
      · exact h

theorem process_line_ok (i : Nat) (s : ChunkCore) (l : List Char)
    (h : chunkCoreOk i s) : chunkCoreOk i (process_line s l) := by
  obtain ⟨cs, cf, cc, fc, ci⟩ := s
  unfold process_line
  dsimp only []
  cases hds : detect_section (stripChars l) with
  | some sec =>
    dsimp only []
    split
    · split
      · exact save_current_file_ok i _ h
      · exact h
    · split
      · exact save_current_file_ok i _ h
      · exact h
  | none =>
    cases hdf : detect_file (stripChars l) with
    | some f =>
      dsimp only []
      split
      · split
        · exact save_current_file_ok i _ h
        · exact h
      · exact content_step_ok i _ l h
    | none => exact content_step_ok i _ l h

theorem foldl_process_line_ok (i : Nat) (ls : List (List Char)) :
    ∀ (s : ChunkCore), chunkCoreOk i s → chunkCoreOk i (ls.foldl process_line s) := by
  induction ls with
  | nil => intro s h; exact h
  | cons l ls ih =>
    intro s h
    rw [List.foldl_cons]
    exact ih _ (process_line_ok i s l h)

theorem process_streaming_chunk_ok (i : Nat) (e : ChunkExtractor) (c : List Char)
    (h : chunkCoreOk i e.core) : chunkCoreOk i (process_streaming_chunk e c).core := by
  unfold process_streaming_chunk
  exact foldl_process_line_ok i _ _ h

theorem finalize_processing_ok (i : Nat) (e : ChunkExtractor)
    (h : chunkCoreOk i e.core) : chunkCoreOk i (finalize_processing e).core := by
  obtain ⟨buf, core⟩ := e
  unfold finalize_processing
  dsimp only []
  split
  · split
    · split
      · exact save_current_file_ok i _ (process_line_ok i _ _ (save_current_file_ok i _ h))
      · exact process_line_ok i _ _ (save_current_file_ok i _ h)
    · split
      · exact save_current_file_ok i _ (process_line_ok i _ _ h)
      · exact process_line_ok i _ _ h
  · split
    · exact save_current_file_ok i _ h
    · exact h

/-- C10: every artifact recorded by the per-chunk extractor — over any run of
feeds from a fresh state followed by finalization — has a filename equal to
its detected (or auto-created) filename with the `_chunk{i}` identifier
inserted before the final dot-separated extension (appended at the end when
there is no dot); in particular no artifact is recorded under the unmodified
detected filename. -/
theorem c10_filenames_carry_chunk_suffix (i : Nat) (frags : List (List Char)) :
    ∀ info ∈ (finalize_processing (frags.foldl process_streaming_chunk
        (initChunkExtractor i))).core.files_created,
      info.filename = add_chunk_suffix info.original_filename i
      ∧ info.filename ≠ info.original_filename := by
  have hinit : chunkCoreOk i (initChunkExtractor i).core :=
    ⟨rfl, by intro info hinfo; simp [initChunkExtractor] at hinfo⟩
  have hfold : ∀ (e : ChunkExtractor), chunkCoreOk i e.core →
      chunkCoreOk i (frags.foldl process_streaming_chunk e).core := by
    induction frags with
    | nil => intro e h; exact h
    | cons c fs ih =>
      intro e h
      rw [List.foldl_cons]
      exact ih _ (process_streaming_chunk_ok i e c h)
  have hfin := finalize_processing_ok i _ (hfold _ hinit)
  intro info hinfo
  refine ⟨hfin.2 info hinfo, ?_⟩
  rw [hfin.2 info hinfo]
  exact add_chunk_suffix_ne _ _

/-- Concrete stream for the C10 witness. -/
def c10Stream : List Char :=
  ("## LAMBDA_FUNCTIONS\n### a.py\nabcdefghijklmnopqrstuvwxyz_0123456789_more\n```\n".toList)

/-- The artifact the C10 witness stream produces. -/
def c10Info : ChunkFileInfo :=
  { filename := ("a_chunk0.py".toList)
    original_filename := ("a.py".toList)
    sectionTag := some .LAMBDA_FUNCTIONS
    chunk_index := 0
    size := 42
    content := ("abcdefghijklmnopqrstuvwxyz_0123456789_more".toList)
    content_type := ("text/x-python".toList) }

/-- Witness for C10 at a concrete run. -/
theorem c10_filenames_carry_chunk_suffix_witness :
    (c10Info ∈ (finalize_processing ([c10Stream].foldl process_streaming_chunk
        (initChunkExtractor 0))).core.files_created)
    ∧ (c10Info.filename = add_chunk_suffix c10Info.original_filename 0
       ∧ c10Info.filename ≠ c10Info.original_filename) :=
  ⟨by decide, c10_filenames_carry_chunk_suffix 0 [c10Stream] c10Info (by decide)⟩

/-!  C7 / C8: the chunk-result aggregator.  -/

/-- Appending a sequence of delimited contents onto a base content. -/
def foldMark (v : List Char) (occs : List (Nat × List Char)) : List Char :=
  occs.foldl (fun acc q => acc ++ chunkMarker q.1 ++ q.2) v

/-- Merging a sequence of delimited contents into an optional existing base. -/
def mergeFrom (base : Option (List Char)) (occs : List (Nat × List Char)) :
    Option (List Char) :=
  match base with
  | some v => some (foldMark v occs)
  | none =>
    match occs with
    | [] => none
    | p :: rest => some (foldMark p.2 rest)

theorem foldMark_append (v : List Char) (o1 o2 : List (Nat × List Char)) :
    foldMark v (o1 ++ o2) = foldMark (foldMark v o1) o2 := by
  unfold foldMark
  rw [List.foldl_append]

theorem mergeFrom_nil (b : Option (List Char)) : mergeFrom b [] = b := by
  cases b <;> rfl

theorem mergeFrom_append (b : Option (List Char)) (o1 o2 : List (Nat × List Char)) :
    mergeFrom b (o1 ++ o2) = mergeFrom (mergeFrom b o1) o2 := by
  cases b with
  | some v => simp [mergeFrom, foldMark_append]
  | none =>
    cases o1 with
    | nil => simp [mergeFrom]
    | cons p rest => simp [mergeFrom, foldMark_append]

theorem dictGet_snoc (d : List (List Char × List Char)) (kv : List Char × List Char)
    (k : List Char) :
    dictGet (d ++ [kv]) k =
      match dictGet d k with
      | some v => some v
      | none => if kv.1 == k then some kv.2 else none := by
  induction d with
  | nil =>
    simp only [List.nil_append, dictGet, List.find?]
    cases hk : kv.1 == k <;> simp [hk]
  | cons p d ih =>
    simp only [List.cons_append, dictGet, List.find?]
    cases hp : p.1 == k
    · simpa [hp, dictGet] using ih
    · simp [hp]

theorem dictGet_appendAt_same (d : List (List Char × List Char)) (k add : List Char) :
    dictGet (dictAppendAt d k add) k = (dictGet d k).map (fun v => v ++ add) := by
  induction d with
  | nil => rfl
  | cons p d ih =>
    simp only [dictAppendAt, List.map_cons, dictGet, List.find?]
    cases hp : p.1 == k
    · simpa [hp, dictGet, dictAppendAt] using ih
    · simp [hp]

theorem dictGet_appendAt_other (d : List (List Char × List Char)) (k k2 add : List Char)
    (hne : (k2 == k) = false) :
    dictGet (dictAppendAt d k add) k2 = dictGet d k2 := by
  induction d with
  | nil => rfl
  | cons p d ih =>
    by_cases hpk : p.1 = k
    · have hp : (p.1 == k) = true := by simpa using hpk
      have hp2 : (p.1 == k2) = false := by
        cases h2 : p.1 == k2
        · rfl
        · exfalso
          have hpv : p.1 = k2 := by simpa using h2
          have hkk : k2 = k := by rw [← hpv, hpk]
          rw [hkk] at hne
          simp at hne
      simp only [dictAppendAt, List.map_cons, hp, if_true, dictGet, List.find?, hp2]
      simpa [dictGet, dictAppendAt] using ih
    · have hp : (p.1 == k) = false := by simpa using hpk
      simp only [dictAppendAt, List.map_cons, hp, Bool.false_eq_true, if_false, dictGet,
        List.find?]
      cases hp2 : p.1 == k2
      · simpa [dictGet, dictAppendAt] using ih
      · simp [hp2]

theorem dictContainsKey_isSome (d : List (List Char × List Char)) (k : List Char) :
    dictContainsKey d k = (dictGet d k).isSome := by
  induction d with
  | nil => rfl
  | cons p d ih =>
    simp only [dictContainsKey, List.any_cons, dictGet, List.find?]
    cases hp : p.1 == k
    · simpa [hp, dictContainsKey, dictGet] using ih
    · simp [hp]

theorem foldMark_cons (v : List Char) (q : Nat × List Char)
    (rest : List (Nat × List Char)) :
    foldMark v (q :: rest) = foldMark (v ++ chunkMarker q.1 ++ q.2) rest := rfl

theorem beq_symm_false (a b : List Char) (h : (a == b) = false) : (b == a) = false := by
  cases hba : b == a
  · rfl
  · exfalso
    have : b = a := by simpa using hba
    rw [this] at h
    simp at h

theorem aggregate_inner_get (idx : Nat) (items : List (List Char × List Char)) :
    ∀ (agg : List (List Char × List Char)) (k : List Char),
      dictGet (items.foldl (fun a kv =>
          if dictContainsKey a kv.1 then dictAppendAt a kv.1 (chunkMarker idx ++ kv.2)
          else a ++ [kv]) agg) k
        = mergeFrom (dictGet agg k)
            ((items.filter (fun p => p.1 == k)).map (fun p => (idx, p.2))) := by
  induction items with
  | nil => intro agg k; simp [mergeFrom_nil]
  | cons kv items ih =>
    intro agg k
    rw [List.foldl_cons, ih]
    cases hk : kv.1 == k
    · have hfilter : (kv :: items).filter (fun p => p.1 == k)
          = items.filter (fun p => p.1 == k) := by
        simp [List.filter_cons, hk]
      rw [hfilter]
      cases hcont : dictContainsKey agg kv.1
      · simp only [hcont, Bool.false_eq_true, if_false]
        congr 1
        rw [dictGet_snoc]
        cases hg : dictGet agg k
        · simp [hk]
        · simp
      · simp only [hcont, if_true]
        congr 1
        exact dictGet_appendAt_other agg kv.1 k (chunkMarker idx ++ kv.2)
          (beq_symm_false kv.1 k hk)
    · have hk' : kv.1 = k := by simpa using hk
      have hfilter : (kv :: items).filter (fun p => p.1 == k)
          = kv :: items.filter (fun p => p.1 == k) := by
        simp [List.filter_cons, hk]
      rw [hfilter]
      cases hcont : dictContainsKey agg kv.1
      · have hnone : dictGet agg k = none := by
          rw [dictContainsKey_isSome] at hcont
          rw [← hk']
          exact Option.not_isSome_iff_eq_none.mp (by rw [hcont]; simp)
        simp only [hcont, Bool.false_eq_true, if_false]
        rw [dictGet_snoc, hnone, hk]
        simp only [hnone, List.map_cons]
        rfl
      · have hsome : (dictGet agg kv.1).isSome := by
          rw [← dictContainsKey_isSome, hcont]
        obtain ⟨v, hv⟩ := Option.isSome_iff_exists.mp (hk' ▸ hsome)
        simp only [hcont, if_true]
        rw [hk'] at *
        rw [dictGet_appendAt_same, hv]
        simp only [Option.map_some, hv, List.map_cons]
        show mergeFrom (some (v ++ (chunkMarker idx ++ kv.2))) _
          = mergeFrom (some v) ((idx, kv.2) :: _)
        simp only [mergeFrom, foldMark_cons]
        rw [List.append_assoc]

theorem aggregate_go_get (rs : List ChunkAnalysisResult) :
    ∀ (i : Nat) (agg : List (List Char × List Char)) (k : List Char),
      dictGet (aggregate_go agg i rs) k
        = mergeFrom (dictGet agg k) (successfulOccurrences k i rs) := by
  induction rs with
  | nil => intro i agg k; simp [aggregate_go, successfulOccurrences, mergeFrom_nil]
  | cons r rs ih =>
    intro i agg k
    simp only [aggregate_go, successfulOccurrences]
    cases hstat : r.status == ("error".toList)
    · simp only [hstat, Bool.false_eq_true, if_false]
      rw [ih, aggregate_one]
      simp only [hstat, Bool.false_eq_true, if_false]
      rw [aggregate_inner_get, mergeFrom_append]
    · simp only [hstat, if_true]
      rw [ih, aggregate_one]
      simp only [hstat, if_true, List.nil_append]

/-- C7: the aggregator refines the spec's merge rule — for every ordered list
of chunk results and every service type, the aggregated content equals the
spec-side merge (failed chunks skipped; the first successful chunk's content
is the base; every later content for the same type appended after the
delimiter naming its originating chunk, in chunk order); and concretely, two
successful results that both carry a `LAMBDA_FUNCTIONS` section merge into a
single entry holding both texts around the chunk-2 delimiter. -/
theorem c7_aggregator_merges_in_chunk_order :
    (∀ (rs : List ChunkAnalysisResult) (k : List Char),
        dictGet (aggregate_chunk_results rs) k = mergeSpecContent k rs)
    ∧ aggregate_chunk_results
        [ { status := ("success".toList)
            service_contents := [(("LAMBDA_FUNCTIONS".toList), ("alpha".toList))] }
        , { status := ("success".toList)
            service_contents := [(("LAMBDA_FUNCTIONS".toList), ("beta".toList))] } ]
        = [(("LAMBDA_FUNCTIONS".toList),
            ("alpha\n\n### Additional Analysis from Chunk 2\n\nbeta".toList))] := by
  constructor
  · intro rs k
    rw [aggregate_chunk_results, aggregate_go_get]
    show mergeFrom none (successfulOccurrences k 0 rs) = mergeSpecContent k rs
    rw [mergeSpecContent]
    cases hocc : successfulOccurrences k 0 rs
    · rfl
    · rfl
  · decide

theorem aggregate_go_all_error (rs : List ChunkAnalysisResult) :
    ∀ (i : Nat) (agg : List (List Char × List Char)),
      (∀ r ∈ rs, r.status = ("error".toList)) → aggregate_go agg i rs = agg := by
  induction rs with
  | nil => intro i agg _; rfl
  | cons r rs ih =>
    intro i agg h
    simp only [aggregate_go]
    have hr : (r.status == ("error".toList)) = true := by
      simp [h r (by simp)]
    rw [aggregate_one]
    simp only [hr, if_true]
    exact ih (i + 1) agg (fun x hx => h x (by simp [hx]))

/-- C8: aggregating a list of chunk results none of which is successful —
every status is the error/success dichotomy and none is `success`, which
includes the empty list — yields the empty mapping. -/
theorem c8_no_success_empty_aggregate (rs : List ChunkAnalysisResult)
    (hdom : ∀ r ∈ rs, r.status = ("error".toList) ∨ r.status = ("success".toList))
    (hnone : ∀ r ∈ rs, r.status ≠ ("success".toList)) :
    aggregate_chunk_results rs = [] := by
  rw [aggregate_chunk_results]
  exact aggregate_go_all_error rs 0 []
    (fun r hr => (hdom r hr).resolve_right (hnone r hr))

/-- Witness for C8 at a concrete all-failed input. -/
theorem c8_no_success_empty_aggregate_witness :
    ((∀ r ∈ [({ status := ("error".toList)
                service_contents := [(("LAMBDA_FUNCTIONS".toList), ("x".toList))] }
              : ChunkAnalysisResult)],
        r.status = ("error".toList) ∨ r.status = ("success".toList))
      ∧ (∀ r ∈ [({ status := ("error".toList)
                   service_contents := [(("LAMBDA_FUNCTIONS".toList), ("x".toList))] }
                 : ChunkAnalysisResult)],
          r.status ≠ ("success".toList)))
    ∧ aggregate_chunk_results
        [({ status := ("error".toList)
            service_contents := [(("LAMBDA_FUNCTIONS".toList), ("x".toList))] }
          : ChunkAnalysisResult)] = [] :=
  ⟨⟨by decide, by decide⟩,
    c8_no_success_empty_aggregate _ (by decide) (by decide)⟩

theorem startsWithStr_self_append (p rest : List Char) :
    startsWithStr p (p ++ rest) = true := by
  induction p with
  | nil => rfl
  | cons c cs ih => simp [startsWithStr, ih]

theorem findSub_isPref (pat rest : List Char) (hp : pat ≠ []) :
    findSub pat (pat ++ rest) = some 0 := by
  cases pat with
  | nil => exact absurd rfl hp
  | cons c cs =>
    show findSub (c :: cs) (c :: (cs ++ rest)) = some 0
    unfold findSub
    rw [show (c :: (cs ++ rest)) = (c :: cs) ++ rest from rfl,
      startsWithStr_self_append]
    simp

theorem take_len_append (a b : List Char) : (a ++ b).take a.length = a := by
  induction a with
  | nil => rfl
  | cons c cs ih => simp [ih]

theorem drop_len_append (a b : List Char) : (a ++ b).drop a.length = b := by
  induction a with
  | nil => rfl
  | cons c cs ih => simp [ih]

theorem matchMarkerAt_a (xs : List Char) : matchMarkerAt ('a' :: xs) = none := by
  unfold matchMarkerAt
  rw [show ("--- FILE: ".toList) = '-' :: ("-- FILE: ".toList) from rfl]
  simp [startsWithStr]

theorem findMarker_replicate_a (n : Nat) :
    findMarker (List.replicate n 'a') = none := by
  induction n with
  | zero => rfl
  | succ n ih =>
    rw [List.replicate_succ]
    unfold findMarker
    rw [show ('a' :: List.replicate n 'a') = List.replicate (n + 1) 'a' by
      rw [List.replicate_succ]]
    rw [show List.replicate (n + 1) 'a' = 'a' :: List.replicate n 'a' from
      List.replicate_succ ..]
    rw [matchMarkerAt_a, ih]
    rfl

theorem splitFileMarkers_replicate_a (n : Nat) :
    splitFileMarkers (List.replicate n 'a') = [List.replicate n 'a'] := by
  unfold splitFileMarkers
  rw [show (List.replicate n 'a').length + 1 = n + 1 by simp]
  unfold splitFMGo
  rw [findMarker_replicate_a]

theorem dropWhile_replicate_a (n : Nat) :
    List.dropWhile isSpacePy (List.replicate n 'a') = List.replicate n 'a' := by
  cases n with
  | zero => rfl
  | succ n =>
    rw [List.replicate_succ, List.dropWhile_cons]
    simp [show isSpacePy 'a' = false from rfl]

theorem stripChars_replicate_a (n : Nat) :
    stripChars (List.replicate n 'a') = List.replicate n 'a' := by
  unfold stripChars
  rw [dropWhile_replicate_a, List.reverse_replicate, dropWhile_replicate_a,
    List.reverse_replicate]

theorem paraGo_replicate_a (n : Nat) :
    ∀ (cur : List Char),
      paraGo cur false false (List.replicate n 'a')
        = [cur.reverse ++ List.replicate n 'a'] := by
  induction n with
  | zero => intro cur; simp [paraGo]
  | succ n ih =>
    intro cur
    rw [List.replicate_succ]
    unfold paraGo
    simp only [show ('a' = '\n') = False by simp, if_false]
    rw [ih ('a' :: cur)]
    simp [List.replicate_succ]

theorem splitParas_replicate_a (n : Nat) :
    splitParas (List.replicate n 'a') = [List.replicate n 'a'] := by
  unfold splitParas
  rw [paraGo_replicate_a]
  rfl

theorem sentGo_replicate_a (n : Nat) :
    ∀ (cur : List Char) (lp : Bool),
      sentGo cur lp false (List.replicate n 'a')
        = [cur.reverse ++ List.replicate n 'a'] := by
  induction n with
  | zero => intro cur lp; simp [sentGo]
  | succ n ih =>
    intro cur lp
    rw [List.replicate_succ]
    unfold sentGo
    simp only [Bool.false_eq_true, if_false,
      show isSpacePy 'a' = false from rfl, Bool.and_false, Bool.and_eq_true]
    rw [ih ('a' :: cur) (isPunctPy 'a')]
    simp [List.replicate_succ]

theorem splitSentences_replicate_a (n : Nat) :
    splitSentences (List.replicate n 'a') = [List.replicate n 'a'] := by
  unfold splitSentences
  rw [sentGo_replicate_a]
  rfl

theorem replicate_a_ne_nil (n : Nat) (hn : n ≠ 0) : List.replicate n 'a' ≠ [] := by
  intro h
  have h2 := congrArg List.length h
  rw [List.length_replicate, List.length_nil] at h2
  exact hn h2

theorem est_replicate_a (n : Nat) :
    estimate_token_count (List.replicate n 'a') = n / 4 := by
  unfold estimate_token_count
  rw [List.length_replicate]

theorem create_chunks_single_sentence (B n : Nat) (hn : n ≠ 0)
    (hbig : ((n / 4 : Nat) : Int) > (B : Int) - ((3 : Nat) : Int) - 500) :
    create_chunks (("DOCUMENTATION:".toList) ++ List.replicate n 'a') B
      = [("DOCUMENTATION:".toList) ++ ("\n\n".toList) ++ List.replicate n 'a'] := by
  have hsen : ∀ (avail : Int) (pp : List Char),
      processSentence avail pp { chunks := [], cur := [], curTok := 0 }
        (List.replicate n 'a')
      = { chunks := [], cur := List.replicate n 'a', curTok := n / 4 } := by
    intro avail pp
    unfold processSentence
    rw [est_replicate_a]
    rw [if_neg (by simp)]
    rw [if_neg (by simp)]
    simp
  have hpara : ∀ (avail : Int) (pp : List Char),
      ((n / 4 : Nat) : Int) > avail →
      processPara avail pp { chunks := [], cur := [], curTok := 0 }
        (List.replicate n 'a')
      = { chunks := [], cur := List.replicate n 'a', curTok := n / 4 } := by
    intro avail pp h
    unfold processPara
    rw [est_replicate_a, if_pos h, splitSentences_replicate_a, List.foldl_cons,
      List.foldl_nil, hsen]
  have hdoc : ∀ (avail : Int) (pp : List Char),
      ((n / 4 : Nat) : Int) > avail →
      processDoc avail pp { chunks := [], cur := [], curTok := 0 }
        (List.replicate n 'a')
      = { chunks := [], cur := List.replicate n 'a', curTok := n / 4 } := by
    intro avail pp h
    unfold processDoc
    rw [stripChars_replicate_a, if_neg (replicate_a_ne_nil n hn), est_replicate_a,
      if_pos h, if_neg (by simp), splitParas_replicate_a, List.foldl_cons,
      List.foldl_nil, hpara avail pp h]
  unfold create_chunks
  rw [findSub_isPref _ _ (by decide)]
  dsimp only []
  rw [show (0 + 14 : Nat) = ("DOCUMENTATION:".toList).length from rfl]
  rw [take_len_append, drop_len_append]
  rw [show estimate_token_count ("DOCUMENTATION:".toList) = 3 from rfl]
  rw [splitFileMarkers_replicate_a]
  rw [List.foldl_cons, List.foldl_nil]
  rw [hdoc _ _ hbig]
  rw [if_pos (by exact replicate_a_ne_nil n hn)]
  simp

/-- C3 (the code violates the claim): with the default budget of 15000
tokens per chunk, a 60000-character input consisting of a single sentence
with no document, paragraph or sentence boundary is emitted whole as one
chunk — `create_chunks` has no character-level cut — and that chunk's
estimated token count is 15004, exceeding the budget (the 500-token safety
buffer is internal to the budget, not an allowance above it). -/
theorem c3_oversized_sentence_chunk_exceeds_budget :
    create_chunks (("DOCUMENTATION:".toList) ++ List.replicate 60000 'a') 15000
      = [("DOCUMENTATION:".toList) ++ ("\n\n".toList) ++ List.replicate 60000 'a']
    ∧ estimate_token_count
        (("DOCUMENTATION:".toList) ++ ("\n\n".toList) ++ List.replicate 60000 'a')
      = 15004
    ∧ 15000 < 15004 := by
  refine ⟨?_, ?_, by norm_num⟩
  · exact create_chunks_single_sentence 15000 60000 (by norm_num) (by norm_num)
  · have hlen : (("DOCUMENTATION:".toList) ++ ("\n\n".toList)
        ++ List.replicate 60000 'a').length = 60016 := by
      rw [List.length_append, List.length_append, List.length_replicate,
        show ("DOCUMENTATION:".toList).length = 14 from by decide,
        show ("\n\n".toList).length = 2 from by decide]
    rw [show ∀ t, estimate_token_count t = t.length / 4 from fun t => rfl, hlen]

/-!  C4 / C9: exact traces of well-formed streams.  Infrastructure: how
newline-free lines pass through the buffer split and the content cleaner.  -/

theorem splitComplete_no_nl (l : List Char) (h : '\n' ∉ l) :
    splitComplete l = ([], l) := by
  induction l with
  | nil => rfl
  | cons c cs ih =>
    have hc : ¬ (c = '\n') := fun he => h (he ▸ List.mem_cons_self c cs)
    rw [splitComplete_cons, ih (fun hm => h (List.mem_cons_of_mem c hm))]
    simp [hc]

theorem splitComplete_line (l rest : List Char) (h : '\n' ∉ l) :
    splitComplete (l ++ '\n' :: rest)
      = (l :: (splitComplete rest).1, (splitComplete rest).2) := by
  induction l with
  | nil => rw [List.nil_append, splitComplete_cons]; simp
  | cons c cs ih =>
    have hc : ¬ (c = '\n') := fun he => h (he ▸ List.mem_cons_self c cs)
    rw [List.cons_append, splitComplete_cons,
      ih (fun hm => h (List.mem_cons_of_mem c hm))]
    simp [hc]

theorem splitComplete_join_line (L : List (List Char)) (rest : List Char)
    (hL : L ≠ []) (hnl : ∀ l ∈ L, '\n' ∉ l) :
    splitComplete (joinNl L ++ '\n' :: rest)
      = (L ++ (splitComplete rest).1, (splitComplete rest).2) := by
  induction L with
  | nil => exact absurd rfl hL
  | cons l L ih =>
    cases L with
    | nil =>
      show splitComplete (l ++ '\n' :: rest) = _
      rw [splitComplete_line l rest (hnl l (by simp))]
      rfl
    | cons l2 L2 =>
      rw [show joinNl (l :: l2 :: L2) = l ++ '\n' :: joinNl (l2 :: L2) from rfl]
      rw [List.append_assoc, List.cons_append]
      rw [splitComplete_line l _ (hnl l (by simp))]
      rw [ih (by simp) (fun x hx => hnl x (by simp [hx]))]
      simp

theorem splitNl_joinNl (L : List (List Char)) (hL : L ≠ [])
    (hnl : ∀ l ∈ L, '\n' ∉ l) :
    splitNl (joinNl L) = L := by
  induction L with
  | nil => exact absurd rfl hL
  | cons l L ih =>
    cases L with
    | nil =>
      show splitNl l = [l]
      unfold splitNl
      rw [splitComplete_no_nl l (hnl l (by simp))]
      rfl
    | cons l2 L2 =>
      unfold splitNl
      rw [show joinNl (l :: l2 :: L2) = l ++ '\n' :: joinNl (l2 :: L2) from rfl]
      rw [splitComplete_line l _ (hnl l (by simp))]
      have ih2 := ih (by simp) (fun x hx => hnl x (by simp [hx]))
      unfold splitNl at ih2
      simpa using ih2

theorem dropTrailingBlank_id (L : List (List Char))
    (hlast : ∀ x, L.getLast? = some x → (stripChars x).isEmpty = false) :
    (L.reverse.dropWhile (fun l => (stripChars l).isEmpty)).reverse = L := by
  rcases List.eq_nil_or_concat L with h | ⟨M, lst, h⟩
  · subst h; rfl
  · subst h
    rw [List.concat_eq_append, List.reverse_append, List.reverse_cons,
      List.reverse_nil, List.nil_append, List.cons_append, List.nil_append,
      List.dropWhile_cons]
    rw [hlast lst (by simp [List.getLast?_concat])]
    simp

theorem clean_foldl_nonempty (ls : List (List Char)) :
    ∀ acc : List (List Char), acc ≠ [] →
      ls.foldl (fun acc line =>
        if startsWithStr ("```".toList) (stripChars line) then acc
        else if acc.isEmpty && (stripChars line).isEmpty then acc
        else acc ++ [line]) acc
      = acc ++ ls.filter (fun l => !startsWithStr ("```".toList) (stripChars l)) := by
  induction ls with
  | nil => intro acc _; simp
  | cons l ls ih =>
    intro acc hacc
    rw [List.foldl_cons]
    have hss : acc.isEmpty = false := by
      cases acc
      · exact absurd rfl hacc
      · rfl
    cases hf : startsWithStr ("```".toList) (stripChars l)
    · simp only [hf, Bool.false_eq_true, if_false, hss, Bool.false_and, if_false,
        List.filter_cons, Bool.not_false, if_true]
      rw [ih (acc ++ [l]) (by simp)]
      simp
    · simp only [hf, if_true, List.filter_cons, Bool.not_true, Bool.false_eq_true,
        if_false]
      exact ih acc hacc

/-- Cleaning the joined content of newline-free, fence-free lines whose first
and last lines are non-blank is the identity. -/
theorem clean_file_content_id (L : List (List Char)) (hL : L ≠ [])
    (hnl : ∀ l ∈ L, '\n' ∉ l)
    (hnf : ∀ l ∈ L, startsWithStr ("```".toList) (stripChars l) = false)
    (hhead : ∀ x, L.head? = some x → (stripChars x).isEmpty = false)
    (hlast : ∀ x, L.getLast? = some x → (stripChars x).isEmpty = false) :
    clean_file_content (joinNl L) = joinNl L := by
  unfold clean_file_content
  rw [splitNl_joinNl L hL hnl]
  cases L with
  | nil => exact absurd rfl hL
  | cons l0 L' =>
    rw [List.foldl_cons]
    rw [hnf l0 (by simp)]
    simp only [Bool.false_eq_true, if_false, List.isEmpty_nil, Bool.true_and]
    rw [hhead l0 (by simp)]
    simp only [Bool.false_eq_true, if_false, List.nil_append]
    rw [clean_foldl_nonempty L' [l0] (by simp)]
    rw [List.filter_eq_self.mpr (fun x hx => by
      rw [hnf x (by simp [hx])]; rfl)]
    rw [show ([l0] ++ L' : List (List Char)) = l0 :: L' from rfl]
    rw [dropTrailingBlank_id (l0 :: L') hlast]

/-- Cleaning the joined content with a terminating bare code-fence line
removes exactly the fence. -/
theorem clean_file_content_fence (L : List (List Char)) (hL : L ≠ [])
    (hnl : ∀ l ∈ L, '\n' ∉ l)
    (hnf : ∀ l ∈ L, startsWithStr ("```".toList) (stripChars l) = false)
    (hhead : ∀ x, L.head? = some x → (stripChars x).isEmpty = false)
    (hlast : ∀ x, L.getLast? = some x → (stripChars x).isEmpty = false) :
    clean_file_content (joinNl (L ++ [("```".toList)])) = joinNl L := by
  unfold clean_file_content
  rw [splitNl_joinNl (L ++ [("```".toList)]) (by simp)
    (by
      intro l hl
      rcases List.mem_append.mp hl with h | h
      · exact hnl l h
      · simp only [List.mem_singleton] at h
        subst h
        decide)]
  cases L with
  | nil => exact absurd rfl hL
  | cons l0 L' =>
    rw [List.cons_append, List.foldl_cons]
    rw [hnf l0 (by simp)]
    simp only [Bool.false_eq_true, if_false, List.isEmpty_nil, Bool.true_and]
    rw [hhead l0 (by simp)]
    simp only [Bool.false_eq_true, if_false, List.nil_append]
    rw [clean_foldl_nonempty (L' ++ [("```".toList)]) [l0] (by simp)]
    rw [List.filter_append]
    rw [List.filter_eq_self.mpr (fun x hx => by
      rw [hnf x (by simp [hx])]; rfl)]
    rw [show List.filter (fun l => !startsWithStr ("```".toList) (stripChars l))
        [("```".toList)] = [] from by decide]
    rw [List.append_nil]
    rw [show ([l0] ++ L' : List (List Char)) = l0 :: L' from rfl]
    rw [dropTrailingBlank_id (l0 :: L') hlast]

/-- Emitting branch of the flush, for use in the stream traces. -/
theorem save_emits (s : ChunkCore)
    (hf : truthyFile s.current_file = true)
    (hc : s.current_content ≠ [])
    (hth : 30 ≤ (stripChars (clean_file_content (joinNl s.current_content))).length) :
    save_current_file s =
      { s with
        files_created := s.files_created ++
          [{ filename := add_chunk_suffix (s.current_file.getD []) s.chunk_index
             original_filename := s.current_file.getD []
             sectionTag := s.current_section
             chunk_index := s.chunk_index
             size := (clean_file_content (joinNl s.current_content)).length
             content := clean_file_content (joinNl s.current_content)
             content_type := get_content_type (s.current_file.getD []) }]
        current_file := none
        current_content := [] } := by
  have hce : s.current_content.isEmpty = false := by
    cases h : s.current_content
    · exact absurd h hc
    · rfl
  unfold save_current_file
  simp [hf, hce, Nat.not_lt.mpr hth]

theorem save_chunk_index (s : ChunkCore) :
    (save_current_file s).chunk_index = s.chunk_index := by
  unfold save_current_file
  split
  · rfl
  · dsimp only []
    split
    · rfl
    · rfl

/-- `process_line` on a section-header line, unfolded. -/
theorem process_line_section_step (s : ChunkCore) (l : List Char) (sec2 : SectionId)
    (hds : detect_section (stripChars l) = some sec2) :
    process_line s l =
      (if is_doc sec2 then
        { current_section := some sec2
          current_file := auto_doc_name sec2 s.chunk_index
          current_content := []
          files_created :=
            (if truthyFile s.current_file && !s.current_content.isEmpty then
              save_current_file s else s).files_created
          chunk_index :=
            (if truthyFile s.current_file && !s.current_content.isEmpty then
              save_current_file s else s).chunk_index }
      else
        { current_section := some sec2
          current_file := none
          current_content := []
          files_created :=
            (if truthyFile s.current_file && !s.current_content.isEmpty then
              save_current_file s else s).files_created
          chunk_index :=
            (if truthyFile s.current_file && !s.current_content.isEmpty then
              save_current_file s else s).chunk_index }) := by
  unfold process_line
  dsimp only []
  rw [hds]
  cases hdoc : is_doc sec2
  · simp [hdoc]
  · simp only [hdoc, if_true]
    congr 1
    split
    · rw [save_chunk_index]
    · rfl

/-- `process_line` on a file-header line with an active section and no open
file, unfolded. -/
theorem process_line_file_step (i : Nat) (sec : SectionId) (fs : List ChunkFileInfo)
    (l f : List Char)
    (hds : detect_section (stripChars l) = none)
    (hdf : detect_file (stripChars l) = some f)
    (hf : f ≠ []) :
    process_line { current_section := some sec, current_file := none,
                   current_content := [], files_created := fs, chunk_index := i } l
      = { current_section := some sec, current_file := some f,
          current_content := [], files_created := fs, chunk_index := i } := by
  have hfe : f.isEmpty = false := by
    cases h : f
    · exact absurd h hf
    · rfl
  unfold process_line
  dsimp only []
  rw [hds, hdf]
  simp [hfe, truthyFile]

/-- `process_line` on a plain content line that does not fire the
completion heuristic, with a file open, unfolded. -/
theorem process_line_content_step (i : Nat) (sec : SectionId) (f : List Char)
    (cc : List (List Char)) (fs : List ChunkFileInfo) (l : List Char)
    (hds : detect_section (stripChars l) = none)
    (hdf : detect_file (stripChars l) = none)
    (hf : f ≠ [])
    (hcomp : is_file_complete
        { current_section := some sec, current_file := some f,
          current_content := cc ++ [l], files_created := fs, chunk_index := i }
        (stripChars l) = false) :
    process_line { current_section := some sec, current_file := some f,
                   current_content := cc, files_created := fs, chunk_index := i } l
      = { current_section := some sec, current_file := some f,
          current_content := cc ++ [l], files_created := fs, chunk_index := i } := by
  have hfe : f.isEmpty = false := by
    cases h : f
    · exact absurd h hf
    · rfl
  unfold process_line
  dsimp only []
  rw [hds, hdf]
  unfold content_step
  dsimp only []
  simp only [truthyFile, hfe, Bool.not_false, Bool.and_false, Bool.false_eq_true,
    if_false, hcomp, if_true]
  simp [hcomp, hf]

theorem not_fence_ne (ls : List Char)
    (h : startsWithStr ("```".toList) ls = false) :
    (ls == ("```".toList)) = false := by
  cases he : ls == ("```".toList)
  · rfl
  · exfalso
    have : ls = ("```".toList) := by simpa using he
    subst this
    rw [show startsWithStr ("```".toList) ("```".toList) = true from by decide] at h
    simp at h

theorem is_file_complete_false_nondoc (i : Nat) (sec : SectionId) (f : List Char)
    (cc : List (List Char)) (fs : List ChunkFileInfo) (ls : List Char)
    (hsec : is_doc sec = false)
    (hds : detect_section ls = none) (hdf : detect_file ls = none)
    (hfence : (ls == ("```".toList)) = false)
    (hlen : cc.length ≤ 300) :
    is_file_complete { current_section := some sec, current_file := some f,
                       current_content := cc, files_created := fs,
                       chunk_index := i } ls = false := by
  unfold is_file_complete
  by_cases hcc : cc = []
  · subst hcc; simp
  · have hce : cc.isEmpty = false := by
      cases h : cc
      · exact absurd h hcc
      · rfl
    simp [hce, hsec, hds, hdf, hfence, Nat.not_lt.mpr hlen]
    intro h
    exact absurd h (by simpa using hfence)

theorem dropWhile_idem (p : Char → Bool) (l : List Char) :
    (l.dropWhile p).dropWhile p = l.dropWhile p := by
  induction l with
  | nil => rfl
  | cons c t ih =>
    by_cases h : p c
    · simp [List.dropWhile_cons, h, ih]
    · simp [List.dropWhile_cons, h]

theorem dropWhile_prefix_eq (p : Char → Bool) (x q : List Char)
    (hx : x.dropWhile p = x) (hpre : q <+: x) : q.dropWhile p = q := by
  cases q with
  | nil => rfl
  | cons c t =>
    obtain ⟨r, hr⟩ := hpre
    subst hr
    by_cases h : p c
    · exfalso
      rw [List.cons_append, List.dropWhile_cons, if_pos h] at hx
      have h1 : ((t ++ r).dropWhile p).length ≤ (t ++ r).length :=
        (List.dropWhile_suffix p).length_le
      have h2 := congrArg List.length hx
      simp [List.length_append] at h1 h2
      omega
    · simp [List.dropWhile_cons, h]

theorem stripChars_idem (l : List Char) :
    stripChars (stripChars l) = stripChars l := by
  have hpre : (stripChars l) <+: (l.dropWhile isSpacePy) := by
    have hs : ((l.dropWhile isSpacePy).reverse.dropWhile isSpacePy)
        <:+ (l.dropWhile isSpacePy).reverse := List.dropWhile_suffix _
    have h2 := hs.reverse
    simpa [stripChars] using h2
  have hm1 : (stripChars l).dropWhile isSpacePy = stripChars l :=
    dropWhile_prefix_eq isSpacePy _ _ (dropWhile_idem isSpacePy l) hpre
  show (((stripChars l).dropWhile isSpacePy).reverse.dropWhile isSpacePy).reverse
      = stripChars l
  rw [hm1]
  have h3 : (stripChars l).reverse
      = ((l.dropWhile isSpacePy).reverse.dropWhile isSpacePy) := by
    unfold stripChars
    rw [List.reverse_reverse]
  rw [h3, dropWhile_idem]
  rfl

theorem is_file_complete_false_doc (i : Nat) (sec : SectionId) (f : List Char)
    (cc : List (List Char)) (fs : List ChunkFileInfo) (ls : List Char)
    (hsec : is_doc sec = true)
    (hds : detect_section ls = none) (hdf : detect_file ls = none)
    (hfence : (ls == ("```".toList)) = false)
    (hblank : (stripChars ls).isEmpty = false)
    (hlen : cc.length ≤ 300) :
    is_file_complete { current_section := some sec, current_file := some f,
                       current_content := cc, files_created := fs,
                       chunk_index := i } ls = false := by
  unfold is_file_complete
  by_cases hcc : cc = []
  · subst hcc; simp
  · have hce : cc.isEmpty = false := by
      cases h : cc
      · exact absurd h hcc
      · rfl
    simp [hce, hsec, hds, hdf, hfence, hblank, Nat.not_lt.mpr hlen]
    intro h
    exact absurd h (by simpa using hfence)

theorem content_fold_nondoc (i : Nat) (sec : SectionId) (f : List Char)
    (fs : List ChunkFileInfo) (hsec : is_doc sec = false) (hf : f ≠ [])
    (L : List (List Char))
    (hL : ∀ l ∈ L, detect_section (stripChars l) = none
      ∧ detect_file (stripChars l) = none
      ∧ startsWithStr ("```".toList) (stripChars l) = false) :
    ∀ done : List (List Char), done.length + L.length ≤ 300 →
      L.foldl process_line
        { current_section := some sec, current_file := some f,
          current_content := done, files_created := fs, chunk_index := i }
      = { current_section := some sec, current_file := some f,
          current_content := done ++ L, files_created := fs, chunk_index := i } := by
  induction L with
  | nil => intro done _; simp
  | cons l L ih =>
    intro done hlen
    rw [List.foldl_cons]
    obtain ⟨hds, hdf, hfence⟩ := hL l (by simp)
    rw [process_line_content_step i sec f done fs l hds hdf hf
      (is_file_complete_false_nondoc i sec f (done ++ [l]) fs (stripChars l) hsec
        hds hdf (not_fence_ne _ hfence)
        (by simp at hlen ⊢; omega))]
    rw [ih (fun x hx => hL x (by simp [hx])) (done ++ [l])
      (by simp at hlen ⊢; omega)]
    simp

theorem content_fold_doc (i : Nat) (sec : SectionId) (f : List Char)
    (fs : List ChunkFileInfo) (hsec : is_doc sec = true) (hf : f ≠ [])
    (L : List (List Char))
    (hL : ∀ l ∈ L, detect_section (stripChars l) = none
      ∧ detect_file (stripChars l) = none
      ∧ startsWithStr ("```".toList) (stripChars l) = false
      ∧ (stripChars l).isEmpty = false) :
    ∀ done : List (List Char), done.length + L.length ≤ 300 →
      L.foldl process_line
        { current_section := some sec, current_file := some f,
          current_content := done, files_created := fs, chunk_index := i }
      = { current_section := some sec, current_file := some f,
          current_content := done ++ L, files_created := fs, chunk_index := i } := by
  induction L with
  | nil => intro done _; simp
  | cons l L ih =>
    intro done hlen
    rw [List.foldl_cons]
    obtain ⟨hds, hdf, hfence, hblank⟩ := hL l (by simp)
    rw [process_line_content_step i sec f done fs l hds hdf hf
      (is_file_complete_false_doc i sec f (done ++ [l]) fs (stripChars l) hsec
        hds hdf (not_fence_ne _ hfence)
        (by rw [stripChars_idem]; exact hblank)
        (by simp at hlen ⊢; omega))]
    rw [ih (fun x hx => hL x (by simp [hx])) (done ++ [l])
      (by simp at hlen ⊢; omega)]
    simp

set_option maxHeartbeats 2000000 in
/-- C4 (amended): a stream of an artifact-section header, a file header, N
non-header, non-fence, newline-free content lines (first and last non-blank,
N ≤ 300, cleaned content at least the 30-character minimum) and a
terminating bare code-fence line yields exactly one artifact whose content
excludes the fence line and equals the N content lines verbatim. -/
theorem c4_fenced_file_single_artifact (i : Nat) (sec : SectionId)
    (hdr fhdr f : List Char) (L : List (List Char))
    (hhdr_nl : '\n' ∉ hdr) (hfhdr_nl : '\n' ∉ fhdr)
    (hds_hdr : detect_section (stripChars hdr) = some sec)
    (hsec : is_doc sec = false)
    (hds_f : detect_section (stripChars fhdr) = none)
    (hdf_f : detect_file (stripChars fhdr) = some f)
    (hf : f ≠ [])
    (hLne : L ≠ [])
    (hLlen : L.length ≤ 300)
    (hL : ∀ l ∈ L, '\n' ∉ l ∧ detect_section (stripChars l) = none
      ∧ detect_file (stripChars l) = none
      ∧ startsWithStr ("```".toList) (stripChars l) = false)
    (hhead : (stripChars (L.head?.getD [])).isEmpty = false)
    (hlast : (stripChars (L.getLast?.getD [])).isEmpty = false)
    (hth : 30 ≤ (stripChars (joinNl L)).length) :
    (finalize_processing (process_streaming_chunk (initChunkExtractor i)
        (hdr ++ '\n' :: (fhdr ++ '\n' :: (joinNl L ++ '\n' ::
          (("```".toList) ++ ['\n'])))))).core.files_created
      = [{ filename := add_chunk_suffix f i
           original_filename := f
           sectionTag := some sec
           chunk_index := i
           size := (joinNl L).length
           content := joinNl L
           content_type := get_content_type f }] := by
  have hfe : f.isEmpty = false := by
    cases h : f
    · exact absurd h hf
    · rfl
  have hhead2 : ∀ x, L.head? = some x → (stripChars x).isEmpty = false := by
    intro x hx
    rw [hx] at hhead
    simpa using hhead
  have hlast2 : ∀ x, L.getLast? = some x → (stripChars x).isEmpty = false := by
    intro x hx
    rw [hx] at hlast
    simpa using hlast
  have hds3 : detect_section ("```".toList) = none := by decide
  have hdf3 : detect_file ("```".toList) = none := by decide
  have hstrip3 : stripChars ("```".toList) = ("```".toList) := by decide
  have hclean : clean_file_content (joinNl (L ++ [("```".toList)])) = joinNl L :=
    clean_file_content_fence L hLne (fun l hl => (hL l hl).1)
      (fun l hl => (hL l hl).2.2.2) hhead2 hlast2
  have hlines : splitComplete (hdr ++ '\n' :: (fhdr ++ '\n' :: (joinNl L ++ '\n' ::
      (("```".toList) ++ ['\n']))))
      = (hdr :: fhdr :: (L ++ [("```".toList)]), []) := by
    rw [splitComplete_line hdr _ hhdr_nl]
    rw [splitComplete_line fhdr _ hfhdr_nl]
    rw [splitComplete_join_line L _ hLne (fun l hl => (hL l hl).1)]
    rw [show (("```".toList) ++ ['\n'] : List Char)
        = ("```".toList) ++ '\n' :: [] from rfl]
    rw [splitComplete_line ("```".toList) [] (by decide)]
    rfl
  have hfeed : process_streaming_chunk (initChunkExtractor i)
      (hdr ++ '\n' :: (fhdr ++ '\n' :: (joinNl L ++ '\n' ::
        (("```".toList) ++ ['\n']))))
      = { buffer := []
          core := List.foldl process_line (initChunkExtractor i).core
            (hdr :: fhdr :: (L ++ [("```".toList)])) } := by
    unfold process_streaming_chunk
    rw [show (initChunkExtractor i).buffer ++ (hdr ++ '\n' :: (fhdr ++ '\n' ::
        (joinNl L ++ '\n' :: (("```".toList) ++ ['\n']))))
        = (hdr ++ '\n' :: (fhdr ++ '\n' :: (joinNl L ++ '\n' ::
          (("```".toList) ++ ['\n'])))) from by simp [initChunkExtractor]]
    rw [hlines]
  have h1 : process_line (initChunkExtractor i).core hdr
      = { current_section := some sec, current_file := none, current_content := [],
          files_created := [], chunk_index := i } := by
    rw [process_line_section_step _ _ sec hds_hdr]
    simp [hsec, truthyFile, initChunkExtractor]
  have h2 : process_line
      { current_section := some sec, current_file := none, current_content := [],
        files_created := [], chunk_index := i } fhdr
      = { current_section := some sec, current_file := some f, current_content := [],
          files_created := [], chunk_index := i } :=
    process_line_file_step i sec [] fhdr f hds_f hdf_f hf
  have h3 := content_fold_nondoc i sec f [] hsec hf L
    (fun l hl => (hL l hl).2) [] (by simpa using hLlen)
  have hth2 : 30 ≤ (stripChars (clean_file_content
      (joinNl (L ++ [("```".toList)])))).length := by
    rw [hclean]; exact hth
  have hsave : save_current_file
      { current_section := some sec, current_file := some f,
        current_content := L ++ [("```".toList)], files_created := [],
        chunk_index := i }
      = { current_section := some sec, current_file := none, current_content := [],
          files_created := [{ filename := add_chunk_suffix f i
                              original_filename := f
                              sectionTag := some sec
                              chunk_index := i
                              size := (joinNl L).length
                              content := joinNl L
                              content_type := get_content_type f }],
          chunk_index := i } := by
    have hse := save_emits
      { current_section := some sec, current_file := some f,
        current_content := L ++ [("```".toList)], files_created := [],
        chunk_index := i } (by simp [truthyFile, hfe]) (by simp) hth2
    rw [hse]
    dsimp only [Option.getD]
    rw [hclean]
    simp only [List.nil_append]
  have h4 : process_line
      { current_section := some sec, current_file := some f, current_content := L,
        files_created := [], chunk_index := i } ("```".toList)
      = (if is_file_complete
            { current_section := some sec, current_file := some f,
              current_content := L ++ [("```".toList)], files_created := [],
              chunk_index := i } ("```".toList) then
          save_current_file
            { current_section := some sec, current_file := some f,
              current_content := L ++ [("```".toList)], files_created := [],
              chunk_index := i }
        else
          { current_section := some sec, current_file := some f,
            current_content := L ++ [("```".toList)], files_created := [],
            chunk_index := i }) := by
    unfold process_line
    dsimp only []
    rw [hstrip3, hds3, hdf3]
    unfold content_step
    dsimp only []
    simp only [hsec, Bool.false_and, Bool.false_eq_true, if_false, truthyFile,
      hfe, Bool.not_false, if_true]
    rw [hstrip3]
  rw [hfeed]
  rw [List.foldl_cons, h1, List.foldl_cons, h2, List.foldl_append, h3,
    List.nil_append, List.foldl_cons, List.foldl_nil, h4]
  cases hcomp : is_file_complete
      { current_section := some sec, current_file := some f,
        current_content := L ++ [("```".toList)], files_created := [],
        chunk_index := i } ("```".toList)
  · rw [if_neg (by simp [hcomp])]
    unfold finalize_processing
    dsimp only []
    rw [if_neg (by decide)]
    rw [if_pos (by simp [truthyFile, hfe])]
    rw [hsave]
  · rw [if_pos (by simp [hcomp])]
    rw [hsave]
    unfold finalize_processing
    dsimp only []
    rw [if_neg (by decide)]
    rw [if_neg (by simp [truthyFile])]

/-- Witness for the amended C4 at a concrete stream. -/
theorem c4_fenced_file_single_artifact_witness :
    (30 ≤ (stripChars (joinNl
        [("abcdefghijklmnopqrstuvwxyz_0123456789_more".toList)])).length)
    ∧ (finalize_processing (process_streaming_chunk (initChunkExtractor 0)
        (("## LAMBDA_FUNCTIONS".toList) ++ '\n' :: (("### a.py".toList) ++ '\n' ::
          (joinNl [("abcdefghijklmnopqrstuvwxyz_0123456789_more".toList)] ++ '\n' ::
            (("```".toList) ++ ['\n'])))))).core.files_created
      = [{ filename := add_chunk_suffix ("a.py".toList) 0
           original_filename := ("a.py".toList)
           sectionTag := some .LAMBDA_FUNCTIONS
           chunk_index := 0
           size := (joinNl [("abcdefghijklmnopqrstuvwxyz_0123456789_more".toList)]).length
           content := joinNl [("abcdefghijklmnopqrstuvwxyz_0123456789_more".toList)]
           content_type := get_content_type ("a.py".toList) }] :=
  ⟨by decide,
    c4_fenced_file_single_artifact 0 .LAMBDA_FUNCTIONS
      ("## LAMBDA_FUNCTIONS".toList) ("### a.py".toList) ("a.py".toList)
      [("abcdefghijklmnopqrstuvwxyz_0123456789_more".toList)]
      (by decide) (by decide) (by decide) (by decide) (by decide) (by decide)
      (by decide) (by decide) (by decide) (by decide) (by decide) (by decide)
      (by decide)⟩

/-- C4 (counterexample to the claim as stated): a stream of exactly the
claimed shape whose single content line is sub-threshold yields zero
artifacts, not one. -/
theorem c4_counterexample :
    (finalize_processing (process_streaming_chunk (initChunkExtractor 0)
        ("## LAMBDA_FUNCTIONS\n### a.py\nx\n```\n".toList))).core.files_created = []
    ∧ ¬ ((finalize_processing (process_streaming_chunk (initChunkExtractor 0)
        ("## LAMBDA_FUNCTIONS\n### a.py\nx\n```\n".toList))).core.files_created.length
          = 1) := by
  constructor
  · decide
  · decide

theorem auto_doc_name_eq (sec : SectionId) (i : Nat) (h : is_doc sec = true) :
    auto_doc_name sec i = some ((auto_doc_name sec i).getD [])
    ∧ (auto_doc_name sec i).getD [] ≠ [] := by
  cases sec with
  | README =>
    refine ⟨rfl, ?_⟩
    intro h0
    have := congrArg List.length h0
    simp [auto_doc_name] at this
  | REASONING =>
    refine ⟨rfl, ?_⟩
    intro h0
    have := congrArg List.length h0
    simp [auto_doc_name] at this
  | ARCHITECTURE =>
    refine ⟨rfl, ?_⟩
    intro h0
    have := congrArg List.length h0
    simp [auto_doc_name] at this
  | LAMBDA_FUNCTIONS => simp [is_doc] at h
  | IAM_ROLES => simp [is_doc] at h
  | DYNAMODB => simp [is_doc] at h
  | S3 => simp [is_doc] at h
  | SQS_SNS_EVENTBRIDGE => simp [is_doc] at h
  | STEP_FUNCTIONS => simp [is_doc] at h
  | AWS_GLUE => simp [is_doc] at h
  | API_GATEWAY => simp [is_doc] at h
  | ECS_FARGATE => simp [is_doc] at h
  | RDS => simp [is_doc] at h
  | CLOUDFORMATION => simp [is_doc] at h
  | OTHER_SERVICES => simp [is_doc] at h

set_option maxHeartbeats 2000000 in
/-- C9 (amended): a stream of a documentation-section header, N non-header,
non-fence, non-blank, newline-free content lines (N at most the 300-line
force-completion cap, stripped content at least the 30-character minimum)
and another section header, with no explicit file header, yields exactly one
artifact for the documentation section; its `original_filename` is the
section's canonical auto-created filename (which carries the chunk
identifier), and its recorded `filename` is that canonical name with the
`_chunk{i}` suffix inserted a second time by the save step. -/
theorem c9_doc_section_single_artifact (i : Nat) (sec sec2 : SectionId)
    (hdr hdr2 : List Char) (L : List (List Char))
    (hhdr_nl : '\n' ∉ hdr) (hhdr2_nl : '\n' ∉ hdr2)
    (hds_hdr : detect_section (stripChars hdr) = some sec)
    (hsec : is_doc sec = true)
    (hds_hdr2 : detect_section (stripChars hdr2) = some sec2)
    (hLne : L ≠ [])
    (hLlen : L.length ≤ 300)
    (hL : ∀ l ∈ L, '\n' ∉ l ∧ detect_section (stripChars l) = none
      ∧ detect_file (stripChars l) = none
      ∧ startsWithStr ("```".toList) (stripChars l) = false
      ∧ (stripChars l).isEmpty = false)
    (hth : 30 ≤ (stripChars (joinNl L)).length) :
    (finalize_processing (process_streaming_chunk (initChunkExtractor i)
        (hdr ++ '\n' :: (joinNl L ++ '\n' :: (hdr2 ++ ['\n']))))).core.files_created
      = [{ filename := add_chunk_suffix ((auto_doc_name sec i).getD []) i
           original_filename := (auto_doc_name sec i).getD []
           sectionTag := some sec
           chunk_index := i
           size := (joinNl L).length
           content := joinNl L
           content_type := get_content_type ((auto_doc_name sec i).getD []) }] := by
  obtain ⟨hauto, hname⟩ := auto_doc_name_eq sec i hsec
  have hnamee : ((auto_doc_name sec i).getD []).isEmpty = false := by
    cases h : (auto_doc_name sec i).getD []
    · exact absurd h hname
    · rfl
  have hhead2 : ∀ x, L.head? = some x → (stripChars x).isEmpty = false := by
    intro x hx
    exact (hL x (List.mem_of_mem_head? hx)).2.2.2.2
  have hlast2 : ∀ x, L.getLast? = some x → (stripChars x).isEmpty = false := by
    intro x hx
    obtain ⟨h, hxe⟩ := List.mem_getLast?_eq_getLast (Option.mem_def.mpr hx)
    subst hxe
    exact (hL _ (List.getLast_mem h)).2.2.2.2
  have hclean : clean_file_content (joinNl L) = joinNl L :=
    clean_file_content_id L hLne (fun l hl => (hL l hl).1)
      (fun l hl => (hL l hl).2.2.2.1) hhead2 hlast2
  have hlines : splitComplete (hdr ++ '\n' :: (joinNl L ++ '\n' :: (hdr2 ++ ['\n'])))
      = (hdr :: (L ++ [hdr2]), []) := by
    rw [splitComplete_line hdr _ hhdr_nl]
    rw [splitComplete_join_line L _ hLne (fun l hl => (hL l hl).1)]
    rw [show (hdr2 ++ ['\n'] : List Char) = hdr2 ++ '\n' :: [] from rfl]
    rw [splitComplete_line hdr2 [] hhdr2_nl]
    rfl
  have hfeed : process_streaming_chunk (initChunkExtractor i)
      (hdr ++ '\n' :: (joinNl L ++ '\n' :: (hdr2 ++ ['\n'])))
      = { buffer := []
          core := List.foldl process_line (initChunkExtractor i).core
            (hdr :: (L ++ [hdr2])) } := by
    unfold process_streaming_chunk
    rw [show (initChunkExtractor i).buffer ++ (hdr ++ '\n' :: (joinNl L ++ '\n' ::
        (hdr2 ++ ['\n'])))
        = (hdr ++ '\n' :: (joinNl L ++ '\n' :: (hdr2 ++ ['\n']))) from by
      simp [initChunkExtractor]]
    rw [hlines]
  have h1 : process_line (initChunkExtractor i).core hdr
      = { current_section := some sec,
          current_file := some ((auto_doc_name sec i).getD []),
          current_content := [], files_created := [], chunk_index := i } := by
    rw [process_line_section_step _ _ sec hds_hdr]
    rw [if_pos hsec]
    rw [show (initChunkExtractor i).core.current_file = none from rfl]
    simp only [truthyFile, Bool.false_and, Bool.false_eq_true, if_false]
    rw [show (initChunkExtractor i).core.chunk_index = i from rfl]
    rw [hauto]
    rfl
  have h3 := content_fold_doc i sec ((auto_doc_name sec i).getD []) [] hsec hname L
    (fun l hl => (hL l hl).2) [] (by simpa using hLlen)
  have hth2 : 30 ≤ (stripChars (clean_file_content (joinNl L))).length := by
    rw [hclean]; exact hth
  have hsave : save_current_file
      { current_section := some sec,
        current_file := some ((auto_doc_name sec i).getD []),
        current_content := L, files_created := [], chunk_index := i }
      = { current_section := some sec, current_file := none, current_content := [],
          files_created := [{ filename := add_chunk_suffix ((auto_doc_name sec i).getD []) i
                              original_filename := (auto_doc_name sec i).getD []
                              sectionTag := some sec
                              chunk_index := i
                              size := (joinNl L).length
                              content := joinNl L
                              content_type := get_content_type ((auto_doc_name sec i).getD []) }],
          chunk_index := i } := by
    have hse := save_emits
      { current_section := some sec,
        current_file := some ((auto_doc_name sec i).getD []),
        current_content := L, files_created := [], chunk_index := i }
      (by simp [truthyFile, hnamee]) (by simpa using hLne) hth2
    rw [hse]
    dsimp only [Option.getD]
    rw [hclean]
    simp only [List.nil_append]
  have h4 : process_line
      { current_section := some sec,
        current_file := some ((auto_doc_name sec i).getD []),
        current_content := L, files_created := [], chunk_index := i } hdr2
      = (if is_doc sec2 then
          { current_section := some sec2, current_file := auto_doc_name sec2 i,
            current_content := [],
            files_created := [{ filename := add_chunk_suffix ((auto_doc_name sec i).getD []) i
                                original_filename := (auto_doc_name sec i).getD []
                                sectionTag := some sec
                                chunk_index := i
                                size := (joinNl L).length
                                content := joinNl L
                                content_type := get_content_type ((auto_doc_name sec i).getD []) }],
            chunk_index := i }
        else
          { current_section := some sec2, current_file := none,
            current_content := [],
            files_created := [{ filename := add_chunk_suffix ((auto_doc_name sec i).getD []) i
                                original_filename := (auto_doc_name sec i).getD []
                                sectionTag := some sec
                                chunk_index := i
                                size := (joinNl L).length
                                content := joinNl L
                                content_type := get_content_type ((auto_doc_name sec i).getD []) }],
            chunk_index := i }) := by
    rw [process_line_section_step _ _ sec2 hds_hdr2]
    have hguard : (truthyFile (some ((auto_doc_name sec i).getD []))
        && !(L.isEmpty)) = true := by
      simp [truthyFile, hnamee]
      cases h : L
      · exact absurd h hLne
      · simp
    cases hd2 : is_doc sec2
    · rw [if_pos hguard, hsave]
    · rw [if_pos hguard, hsave]
  rw [hfeed]
  rw [List.foldl_cons, h1, List.foldl_append, h3, List.nil_append,
    List.foldl_cons, List.foldl_nil, h4]
  cases hd2 : is_doc sec2
  · rw [if_neg (show ¬ ((false : Bool) = true) by simp)]
    unfold finalize_processing
    dsimp only []
    rw [if_neg (by decide)]
    rw [if_neg (by simp [truthyFile])]
  · rw [if_pos (show (true : Bool) = true from rfl)]
    unfold finalize_processing
    dsimp only []
    rw [if_neg (by decide)]
    rw [if_neg (by simp)]

/-- Witness for the amended C9 at a concrete stream. -/
theorem c9_doc_section_single_artifact_witness :
    (30 ≤ (stripChars (joinNl
        [("abcdefghijklmnopqrstuvwxyz_0123456789_more".toList)])).length)
    ∧ (finalize_processing (process_streaming_chunk (initChunkExtractor 0)
        (("## README".toList) ++ '\n' ::
          (joinNl [("abcdefghijklmnopqrstuvwxyz_0123456789_more".toList)] ++ '\n' ::
            (("## IAM_ROLES".toList) ++ ['\n']))))).core.files_created
      = [{ filename := add_chunk_suffix ((auto_doc_name .README 0).getD []) 0
           original_filename := (auto_doc_name .README 0).getD []
           sectionTag := some .README
           chunk_index := 0
           size := (joinNl [("abcdefghijklmnopqrstuvwxyz_0123456789_more".toList)]).length
           content := joinNl [("abcdefghijklmnopqrstuvwxyz_0123456789_more".toList)]
           content_type := get_content_type ((auto_doc_name .README 0).getD []) }] :=
  ⟨by decide,
    c9_doc_section_single_artifact 0 .README .IAM_ROLES
      ("## README".toList) ("## IAM_ROLES".toList)
      [("abcdefghijklmnopqrstuvwxyz_0123456789_more".toList)]
      (by decide) (by decide) (by decide) (by decide) (by decide) (by decide)
      (by decide) (by decide) (by decide)⟩

/-- C9 (counterexample to the claim as stated): on a concrete
documentation-section stream the single emitted artifact is recorded under
`README_chunk0_chunk0.md` — not under the canonical auto-created filename
`README_chunk0.md` (nor under `README.md`): the save step inserts the
`_chunk{i}` suffix a second time. -/
theorem c9_counterexample :
    ((finalize_processing (process_streaming_chunk (initChunkExtractor 0)
        ("## README\nabcdefghijklmnopqrstuvwxyz_0123456789_more\n## IAM_ROLES\n".toList))).core.files_created.map
          (fun info => info.filename))
      = [("README_chunk0_chunk0.md".toList)]
    ∧ ("README_chunk0_chunk0.md".toList) ≠ (auto_doc_name .README 0).getD []
    ∧ ("README_chunk0_chunk0.md".toList) ≠ ("README.md".toList) := by
  refine ⟨by decide, by decide, by decide⟩

/-!  C6: the error sentinel.  -/

theorem pwse_sentinel (post : List (List Char)) (e : List Char)
    (he : startsWithStr ("Error:".toList) e = true) :
    ∀ (pre : List (List Char)) (s : AnaExtractor),
      (∀ c ∈ pre, startsWithStr ("Error:".toList) c = false) →
      process_with_streaming_extraction s (pre ++ e :: post) = .failure e := by
  intro pre
  induction pre with
  | nil =>
    intro s _
    rw [List.nil_append]
    unfold process_with_streaming_extraction
    rw [he]
    rfl
  | cons c pre ih =>
    intro s hpre
    rw [List.cons_append]
    unfold process_with_streaming_extraction
    rw [hpre c (by simp)]
    simp only [Bool.false_eq_true, if_false]
    exact ih (ana_process_streaming_chunk s c) (fun x hx => hpre x (by simp [hx]))

/-- C6 (amended, analysis engine): whenever the fragment stream contains an
`Error:` sentinel fragment, `process_with_streaming_extraction` returns a
chunk-level failure carrying the sentinel, and neither the sentinel nor
anything after it is ever fed to the parser — the result does not depend on
the fragments following the sentinel. -/
theorem c6_analysis_engine_detects_sentinel (pre post : List (List Char))
    (e : List Char)
    (hpre : ∀ c ∈ pre, startsWithStr ("Error:".toList) c = false)
    (he : startsWithStr ("Error:".toList) e = true) :
    process_with_streaming_extraction initAnaExtractor (pre ++ e :: post)
      = .failure e :=
  pwse_sentinel post e he pre initAnaExtractor hpre

/-- Witness for the amended C6 at a concrete fragment stream. -/
theorem c6_analysis_engine_detects_sentinel_witness :
    ((∀ c ∈ [("ok fragment\n".toList)],
        startsWithStr ("Error:".toList) c = false)
      ∧ startsWithStr ("Error:".toList) ("Error: throttled".toList) = true)
    ∧ process_with_streaming_extraction initAnaExtractor
        ([("ok fragment\n".toList)] ++ ("Error: throttled".toList)
          :: [("tail fragment".toList)])
      = .failure ("Error: throttled".toList) :=
  ⟨⟨by decide, by decide⟩,
    c6_analysis_engine_detects_sentinel [("ok fragment\n".toList)]
      [("tail fragment".toList)] ("Error: throttled".toList)
      (by decide) (by decide)⟩

/-- Concrete sentinel fragment that also carries parseable structure. -/
def c6Frag : List Char :=
  ("Error: boom\n## LAMBDA_FUNCTIONS\n### a.py\nabcdefghijklmnopqrstuvwxyz_0123456789_more\n```\n".toList)

/-- C6 (counterexample to the claim as stated): the chunk-processor engine
(`process_streaming_response`) performs no sentinel detection — a fragment
starting with the `Error:` marker is fed to the parser like any text (here it
even produces an artifact) and the run reports success, not a chunk-level
failure. -/
theorem c6_counterexample :
    startsWithStr ("Error:".toList) c6Frag = true
    ∧ process_streaming_response 0 [c6Frag]
        = .success [{ filename := ("a_chunk0.py".toList)
                      original_filename := ("a.py".toList)
                      sectionTag := some .LAMBDA_FUNCTIONS
                      chunk_index := 0
                      size := 42
                      content := ("abcdefghijklmnopqrstuvwxyz_0123456789_more".toList)
                      content_type := ("text/x-python".toList) }] := by
  refine ⟨by decide, by decide⟩
